import Mathlib

/-!
Shallow embedding of the limit order book from `src/ob/orderbook.py` and
`src/envs/ob/orderbook_interface.py`.

Python floats (prices, volumes, derived analytics) are modelled as
rationals.  Python exceptions are modelled by pairing an `Except` result
with the state as mutated so far: when a Python method raises, every field
assignment that already executed stays in place, so each operation returns
`Except Err ret × OrderBook`.

The `SideBook`/`PriceLevel` collection that `OrderBook` calls into
(`fill`, `insert_order`, `max`, `min`, `get_price`, `remove_order_by_id`)
and the `error_ask` attribute are referenced by the two source files but
defined in neither; those definitions are modelled from the spec
(sections 3, 4.1, 4.2) and are marked `Modelled from the spec` below.
Each side book is kept as a list of price levels sorted best price first
(bid side: descending price, ask side: ascending price), matching the
spec's ordered mapping whose best price is the maximum (bid) or minimum
(ask) key.
-/

/-- The unbounded-ask sentinel `float(9999999999)` from
`OrderBookInterface.__init__` and the bid/ask property setters. -/
def sentinel : ℚ := 9999999999

/-- Rational addition, written with `mkRat` only so that the kernel can
evaluate the model on concrete inputs (`Rat.add` is irreducible in this
Mathlib); `qadd_eq_add` below proves it equal to `+`. -/
def qadd (a b : ℚ) : ℚ := mkRat (a.num * b.den + b.num * a.den) (a.den * b.den)

/-- Rational subtraction via `mkRat`; `qsub_eq_sub` proves it equal to `-`. -/
def qsub (a b : ℚ) : ℚ := mkRat (a.num * b.den - b.num * a.den) (a.den * b.den)

/-- Rational negation via `mkRat`; `qneg_eq_neg` proves it equal to `-·`. -/
def qneg (a : ℚ) : ℚ := mkRat (-a.num) a.den

/-- Sum of a list of rationals via `qadd`; `qsum_eq_sum` proves it equal
to `List.sum`. -/
def qsum (xs : List ℚ) : ℚ := xs.foldr qadd 0

/-- A resting order: id, limit price, remaining volume payload and arrival
timestamp (spec section 3). -/
structure BookOrder where
  id : Nat
  price : ℚ
  volume : ℚ
  timestamp : Nat
  deriving DecidableEq

/-- A fill event `{order_id, price, timestamp, filled_volume}` as returned
by the matching walk (spec sections 4.1 and 6): the id, resting price and
arrival timestamp of the resting order plus the volume taken from it. -/
structure Fill where
  order_id : Nat
  price : ℚ
  timestamp : Nat
  filled_volume : ℚ
  deriving DecidableEq

/-- One price level: all resting orders at one exact price, FIFO by
arrival (head = earliest). -/
structure PriceLevel where
  price : ℚ
  orders : List BookOrder
  deriving DecidableEq

/-- Aggregate remaining volume of a level (`total_vol` in the source:
invariant `total_volume == sum(o.remaining_volume for o in orders)`). -/
def PriceLevel.total_vol (l : PriceLevel) : ℚ :=
  qsum (l.orders.map BookOrder.volume)

/-- Sum of the `filled_volume` fields of a list of fill events. -/
def fillsSum (fs : List Fill) : ℚ :=
  qsum (fs.map Fill.filled_volume)

/-- Modelled from the spec (section 4.1, `PriceLevel.consume`): removes
`v` of volume starting from the head order; a fully consumed order is
removed, a partially consumed head order stays with reduced volume; stops
once the requested volume is exhausted.  Returns the unconsumed volume,
the fill events in order, and the remaining orders. -/
def consumeOrders (v : ℚ) (os : List BookOrder) : ℚ × List Fill × List BookOrder :=
  match os with
  | [] => (v, [], [])
  | o :: rest =>
    if v ≤ 0 then (v, [], o :: rest)
    else if o.volume ≤ v then
      let r := consumeOrders (qsub v o.volume) rest
      (r.1, ⟨o.id, o.price, o.timestamp, o.volume⟩ :: r.2.1, r.2.2)
    else
      (0, [⟨o.id, o.price, o.timestamp, v⟩], { o with volume := qsub o.volume v } :: rest)

/-- Modelled from the spec (section 4.2, `SideBook.fill`): the matching
walk over a side book held best price first.  Visits levels in priority
order, consumes each crossing level (deleting it once empty), and stops
as soon as the remaining aggressor volume reaches zero or the best
remaining level no longer crosses. -/
def fillLevels (crosses : ℚ → Bool) (v : ℚ) (ls : List PriceLevel) :
    ℚ × List Fill × List PriceLevel :=
  match ls with
  | [] => (v, [], [])
  | lvl :: rest =>
    if v ≤ 0 then (v, [], lvl :: rest)
    else if crosses lvl.price then
      let c := consumeOrders v lvl.orders
      match c.2.2 with
      | [] =>
        let r := fillLevels crosses c.1 rest
        (r.1, c.2.1 ++ r.2.1, r.2.2)
      | o :: os => (c.1, c.2.1, { lvl with orders := o :: os } :: rest)
    else (v, [], lvl :: rest)

/-- Modelled from the spec (sections 4.2 and 4.3): the crossing rule used
by `fill`.  `OrderBook.market` passes the literal threshold `0`, which the
spec calls the unrestricted (market-order) threshold, so a zero threshold
crosses unconditionally; otherwise a buying aggressor crosses a resting
price `p` iff `p ≤ threshold` and a selling aggressor iff `p ≥ threshold`. -/
def crossBuy (threshold p : ℚ) : Bool :=
  decide (threshold = 0) || decide (p ≤ threshold)

/-- Selling-aggressor crossing rule, see `crossBuy`. -/
def crossSell (threshold p : ℚ) : Bool :=
  decide (threshold = 0) || decide (threshold ≤ p)

/-- Modelled from the spec (section 4.2, `SideBook.fill`): dispatch of the
matching walk on the `purchase_type` string the source passes (`"BUY"`
attacks the ask book, anything else sells into the bid book). -/
def fill (threshold v : ℚ) (ptype : String) (ls : List PriceLevel) :
    ℚ × List Fill × List PriceLevel :=
  if ptype = "BUY" then fillLevels (crossBuy threshold) v ls
  else fillLevels (crossSell threshold) v ls

/-- Priority comparator for the bid book: levels are kept in descending
price order (best bid first). -/
def bidBefore (a b : ℚ) : Bool := decide (b < a)

/-- Priority comparator for the ask book: levels are kept in ascending
price order (best ask first). -/
def askBefore (a b : ℚ) : Bool := decide (a < b)

/-- Modelled from the spec (section 4.2, `SideBook.insert_order`): insert
a new resting order, appending to the FIFO tail of an existing level at
the same price or creating a new level at its priority position. -/
def insertLevelOrder (before : ℚ → ℚ → Bool) (o : BookOrder)
    (ls : List PriceLevel) : List PriceLevel :=
  match ls with
  | [] => [⟨o.price, [o]⟩]
  | lvl :: rest =>
    if o.price = lvl.price then { lvl with orders := lvl.orders ++ [o] } :: rest
    else if before o.price lvl.price then ⟨o.price, [o]⟩ :: lvl :: rest
    else lvl :: insertLevelOrder before o rest

/-- Modelled from the spec (sections 3 and 4.2, `SideBook.best_price` for
the bid side): the maximum price of the side book, `0` when the side is
empty.  With the bid book sorted descending this is the head price. -/
def sideMax (ls : List PriceLevel) : ℚ :=
  match ls with
  | [] => 0
  | lvl :: _ => lvl.price

/-- Modelled from the spec (sections 3 and 4.2, `SideBook.best_price` for
the ask side): the minimum price of the side book, the unbounded sentinel
when the side is empty.  With the ask book sorted ascending this is the
head price. -/
def sideMin (ls : List PriceLevel) : ℚ :=
  match ls with
  | [] => sentinel
  | lvl :: _ => lvl.price

/-- Modelled from the spec (`SideBook.get_price` as called by
`OrderBook.refresh`): the level resting at exactly price `p`, if any. -/
def get_price (p : ℚ) (ls : List PriceLevel) : Option PriceLevel :=
  ls.find? (fun l => decide (l.price = p))

/-- Remove the first order with the given id from a FIFO queue, if present. -/
def removeFromLevel (oid : Nat) (os : List BookOrder) : Option (List BookOrder) :=
  match os with
  | [] => none
  | o :: rest =>
    if o.id = oid then some rest
    else (removeFromLevel oid rest).map (o :: ·)

/-- Modelled from the spec (sections 3, 4.1 and 4.2,
`SideBook.remove_order_by_id`): remove the order with the given id from
whichever level holds it, excising the level if it becomes empty; `none`
models the `OrderNotFound` failure. -/
def remove_order_by_id (oid : Nat) (ls : List PriceLevel) : Option (List PriceLevel) :=
  match ls with
  | [] => none
  | lvl :: rest =>
    match removeFromLevel oid lvl.orders with
    | some [] => some rest
    | some os => some ({ lvl with orders := os } :: rest)
    | none => (remove_order_by_id oid rest).map (lvl :: ·)

/-- Total resting volume of a whole side, all levels counted
(`sum(map(lambda lvl: lvl.total_vol, ...))` in
`OrderBookInterface.refresh`). -/
def totalVolumes (ls : List PriceLevel) : ℚ :=
  qsum (ls.map PriceLevel.total_vol)

/-- The Python exceptions the embedded code can raise. -/
inductive Err where
  /-- `ValueError("Invalid volume ...")` from the zero-volume checks. -/
  | invalidVolume
  /-- `ValueError("Invalid price ...")` from the non-positive price check. -/
  | invalidPrice
  /-- `ValueError("Invalid orderbook side ...")`. -/
  | invalidSide
  /-- `ValueError("Invalid bid" / "Invalid ask")` from the bid/ask setters. -/
  | invalidQuote
  /-- `ValueError` from the volume-like setters on a negative value. -/
  | negValue
  /-- The error escaping `self.spread = None` / `self.midquote = None`:
  the setter evaluates `val < 0`, which on `None` raises (`TypeError` in
  Python 3), propagating out of the `except` handler. -/
  | noneCompare
  /-- `OrderNotFound` (spec section 7) from `remove_order_by_id`. -/
  | orderNotFound
  deriving DecidableEq

/-- The `OrderBook` state: the two side books plus the cached derived
analytics fields and bookkeeping from both source classes. -/
structure OrderBook where
  symbol : String
  order_count : Nat
  last_datetime : Option Nat
  bid_limits : List PriceLevel
  ask_limits : List PriceLevel
  bid : ℚ
  ask : ℚ
  bid_vol : ℚ
  ask_vol : ℚ
  spread : ℚ
  midquote : ℚ
  imbalance : ℚ
  misbalance : ℚ
  smart_price : ℚ
  deriving DecidableEq

/-- A fresh book: `OrderBook.__init__` on top of
`OrderBookInterface.__init__` (bid `0`, ask the sentinel, every other
derived field `0`, both side books empty). -/
def OrderBook.init (symbol : String) : OrderBook :=
  ⟨symbol, 0, none, [], [], 0, sentinel, 0, 0, 0, 0, 0, 0, 0⟩

/-- Modelled from the spec: `self.error_ask` is read by
`OrderBook.refresh` but defined in neither source file; its intended
value is the spec's unbounded-ask sentinel (sections 3 and 4.4). -/
def error_ask : ℚ := sentinel

/-- The bid/ask property setter of `OrderBookInterface`: rejects values
outside `[0, sentinel]`. -/
def setQuote (v : ℚ) : Except Err ℚ :=
  if sentinel < v ∨ v < 0 then .error .invalidQuote else .ok v

/-- The volume-like property setters of `OrderBookInterface`: reject
negative values. -/
def setVol (v : ℚ) : Except Err ℚ :=
  if v < 0 then .error .negValue else .ok v

/-- `self.bid = self._bid_limits.max()` inside `try`, with the `except`
handler assigning `self.bid = 0`: a setter rejection degrades to `0`. -/
def clampBid (v : ℚ) : ℚ :=
  match setQuote v with
  | .ok w => w
  | .error _ => 0

/-- `self.ask = self._ask_limits.min()` inside `try`, with the `except`
handler assigning `self.ask = self.error_ask`. -/
def clampAsk (v : ℚ) : ℚ :=
  match setQuote v with
  | .ok w => w
  | .error _ => error_ask

/-- `self.bid_vol = self._bid_limits.get_price(self.bid).total_vol`
inside `try` with the `except` handler assigning `0`: a missing level or
a setter rejection degrades to `0`. -/
def volOf (p : ℚ) (ls : List PriceLevel) : ℚ :=
  match get_price p ls with
  | some lvl =>
    match setVol lvl.total_vol with
    | .ok v => v
    | .error _ => 0
  | none => 0

/-- Halving, as in the source's `(self.ask + self.bid) / 2.0`.  Written
with `mkRat` rather than `/` only so that the definition evaluates inside
the kernel (`Rat.inv` is irreducible); `half_eq_div` below proves it
equal to division by two. -/
def half (q : ℚ) : ℚ := mkRat q.num (q.den * 2)

/-- `OrderBook.refresh` (the override in `src/ob/orderbook.py`, the one
every mutating call runs).  It recomputes `bid`, `ask`, `bid_vol`,
`ask_vol`, `spread` and `midquote` only; `imbalance`, `misbalance` and
`smart_price` are not touched.  The `spread`/`midquote` blocks raise
`ValueError` when `ask == error_ask` (and their setters raise on a
negative value); the `except` handlers then execute
`self.spread = None` / `self.midquote = None`, whose setters evaluate
`val < 0` on `None` and raise, so the exception escapes with the fields
holding their previous values and the earlier assignments in place. -/
def OrderBook.refresh (b : OrderBook) : Except Err Unit × OrderBook :=
  let bid2 := clampBid (sideMax b.bid_limits)
  let ask2 := clampAsk (sideMin b.ask_limits)
  let bv := volOf bid2 b.bid_limits
  let av := volOf ask2 b.ask_limits
  let b4 := { b with bid := bid2, ask := ask2, bid_vol := bv, ask_vol := av }
  if ask2 = error_ask ∨ qsub ask2 bid2 < 0 then (.error .noneCompare, b4)
  else if half (qadd ask2 bid2) < 0 then
    (.error .noneCompare, { b4 with spread := qsub ask2 bid2 })
  else
    (.ok (), { b4 with spread := qsub ask2 bid2, midquote := half (qadd ask2 bid2) })

/-- The common tail of `market` and `limit`: run `refresh`, and on
success increment `order_count`, set `last_datetime` to the call's
timestamp and return the fills; a `refresh` exception propagates before
the increment, leaving `order_count`/`last_datetime` untouched. -/
def OrderBook.finish (b : OrderBook) (fills : List Fill) (ts : Nat) :
    Except Err (List Fill) × OrderBook :=
  match b.refresh with
  | (.error e, b2) => (.error e, b2)
  | (.ok _, b2) =>
    (.ok fills, { b2 with order_count := b2.order_count + 1, last_datetime := some ts })

/-- The side dispatch and matching walk of `OrderBook.market`, after its
validation checks. -/
def OrderBook.marketCore (b : OrderBook) (side : String) (volume : ℚ) (ts : Nat) :
    Except Err (List Fill) × OrderBook :=
  if side = "BID" then
    let r := fill 0 volume "BUY" b.ask_limits
    OrderBook.finish { b with ask_limits := r.2.2 } r.2.1 ts
  else if side = "ASK" then
    let r := fill 0 volume "SELL" b.bid_limits
    OrderBook.finish { b with bid_limits := r.2.2 } r.2.1 ts
  else (.error .invalidSide, b)

/-- `OrderBook.market`: zero-volume check, side dispatch, unrestricted
matching against the opposite book; any remainder is discarded.  The
defaulted `order_id` is computed but unused by the source. -/
def OrderBook.market (b : OrderBook) (side : String) (volume : ℚ) (ts : Nat)
    (oid : Option Nat) : Except Err (List Fill) × OrderBook :=
  let _order_id := oid.getD b.order_count
  if volume = 0 then (.error .invalidVolume, b)
  else b.marketCore side volume ts

/-- The side dispatch, matching walk and resting step of
`OrderBook.limit`, after its validation checks: match against the
opposite book at the limit price, then rest any positive remainder on the
own side unless `cancel` is set. -/
def OrderBook.limitCore (b : OrderBook) (side : String) (price volume : ℚ)
    (ts : Nat) (cancel : Bool) (order_id : Nat) :
    Except Err (List Fill) × OrderBook :=
  if side = "BID" then
    let r := fill price volume "BUY" b.ask_limits
    let b1 := { b with ask_limits := r.2.2 }
    let b2 :=
      if 0 < r.1 ∧ cancel = false then
        { b1 with bid_limits :=
            insertLevelOrder bidBefore ⟨order_id, price, r.1, ts⟩ b1.bid_limits }
      else b1
    OrderBook.finish b2 r.2.1 ts
  else if side = "ASK" then
    let r := fill price volume "SELL" b.bid_limits
    let b1 := { b with bid_limits := r.2.2 }
    let b2 :=
      if 0 < r.1 ∧ cancel = false then
        { b1 with ask_limits :=
            insertLevelOrder askBefore ⟨order_id, price, r.1, ts⟩ b1.ask_limits }
      else b1
    OrderBook.finish b2 r.2.1 ts
  else (.error .invalidSide, b)

/-- `OrderBook.limit`: order-id defaulting, the `volume == 0` and
`price <= 0` validations (raised before any mutation), then the matching
and resting path. -/
def OrderBook.limit (b : OrderBook) (side : String) (price volume : ℚ)
    (ts : Nat) (cancel : Bool) (oid : Option Nat) :
    Except Err (List Fill) × OrderBook :=
  let order_id := oid.getD b.order_count
  if volume = 0 then (.error .invalidVolume, b)
  else if price ≤ 0 then (.error .invalidPrice, b)
  else b.limitCore side price volume ts cancel order_id

/-- Wrap a `limit` result for the maker/immediate-or-cancel wrappers,
which return the fills when they proceed and Python `None` when dropped. -/
def wrapSome (r : Except Err (List Fill) × OrderBook) :
    Except Err (Option (List Fill)) × OrderBook :=
  (r.1.map some, r.2)

/-- `OrderBook.maker_or_cancel`: zero-volume check; the crossing check
compares the OWN side's best price with the submitted price (`BID`:
bid-side maximum `>= price`; `ASK`: ask-side minimum `<= price`) and on
success delegates to `limit(..., cancel=False, order_id)`; otherwise the
order is dropped with no effect (Python returns `None`). -/
def OrderBook.maker_or_cancel (b : OrderBook) (side : String) (price volume : ℚ)
    (ts : Nat) (oid : Option Nat) : Except Err (Option (List Fill)) × OrderBook :=
  let order_id := oid.getD b.order_count
  if volume = 0 then (.error .invalidVolume, b)
  else if side = "BID" then
    if price ≤ sideMax b.bid_limits then
      wrapSome (b.limit "BID" price volume ts false (some order_id))
    else (.ok none, b)
  else if side = "ASK" then
    if sideMin b.ask_limits ≤ price then
      wrapSome (b.limit "ASK" price volume ts false (some order_id))
    else (.ok none, b)
  else (.error .invalidSide, b)

/-- `OrderBook.immediate_or_cancel`: zero-volume check; the marketability
check compares the OPPOSITE side's best price (`BID`: ask-side minimum
`<= price`; `ASK`: bid-side maximum `>= price`) and on success delegates
to `limit(..., cancel=True, order_id)`; otherwise the order is dropped
with no effect (Python returns `None`). -/
def OrderBook.immediate_or_cancel (b : OrderBook) (side : String) (price volume : ℚ)
    (ts : Nat) (oid : Option Nat) : Except Err (Option (List Fill)) × OrderBook :=
  let order_id := oid.getD b.order_count
  if volume = 0 then (.error .invalidVolume, b)
  else if side = "BID" then
    if sideMin b.ask_limits ≤ price then
      wrapSome (b.limit "BID" price volume ts true (some order_id))
    else (.ok none, b)
  else if side = "ASK" then
    if price ≤ sideMax b.bid_limits then
      wrapSome (b.limit "ASK" price volume ts true (some order_id))
    else (.ok none, b)
  else (.error .invalidSide, b)

/-- `OrderBook.cancel`: side dispatch then `remove_order_by_id` on that
side.  Note: no refresh, no `order_count` increment, and the method has
no timestamp parameter at all. -/
def OrderBook.cancel (b : OrderBook) (side : String) (oid : Nat) :
    Except Err Unit × OrderBook :=
  if side = "BID" then
    match remove_order_by_id oid b.bid_limits with
    | some ls => (.ok (), { b with bid_limits := ls })
    | none => (.error .orderNotFound, b)
  else if side = "ASK" then
    match remove_order_by_id oid b.ask_limits with
    | some ls => (.ok (), { b with ask_limits := ls })
    | none => (.error .orderNotFound, b)
  else (.error .invalidSide, b)

/-- The misbalance formula of `OrderBookInterface.refresh`
(`-(total_ask_vol - total_bid_vol)`), which `OrderBook.refresh` never
runs. -/
def interfaceMisbalance (b : OrderBook) : ℚ :=
  qneg (qsub (totalVolumes b.ask_limits) (totalVolumes b.bid_limits))

/-- One `market` or `limit` call, for reasoning about call sequences. -/
inductive Call where
  | market (side : String) (volume : ℚ) (ts : Nat) (oid : Option Nat)
  | limit (side : String) (price volume : ℚ) (ts : Nat) (cancel : Bool) (oid : Option Nat)

/-- Apply one call, keeping the state a raising call leaves behind
(Python exceptions do not roll mutations back). -/
def applyCall (b : OrderBook) : Call → OrderBook
  | .market side v ts oid => (b.market side v ts oid).2
  | .limit side p v ts c oid => (b.limit side p v ts c oid).2

/-- Run a sequence of `market`/`limit` calls. -/
def runCalls (b : OrderBook) (cs : List Call) : OrderBook :=
  cs.foldl applyCall b

/-- A call whose limit price is below the unbounded-ask sentinel
(market calls carry no price). -/
def Call.priceOK : Call → Prop
  | .market _ _ _ _ => True
  | .limit _ p _ _ _ _ => p < sentinel

/-- Well-formedness of a book state reachable by `limit`/`market` calls:
both side books are strictly sorted best price first, every resting price
lies strictly between `0` and the sentinel, every resting bid price is
strictly below every resting ask price, and — when both sides are
non-empty — the cached derived `bid` is strictly below the cached
derived `ask`. -/
def BookInv (b : OrderBook) : Prop :=
  b.bid_limits.Pairwise (fun a c => c.price < a.price) ∧
  b.ask_limits.Pairwise (fun a c => a.price < c.price) ∧
  (∀ l ∈ b.bid_limits, 0 < l.price ∧ l.price < sentinel) ∧
  (∀ l ∈ b.ask_limits, 0 < l.price ∧ l.price < sentinel) ∧
  (∀ l ∈ b.bid_limits, ∀ m ∈ b.ask_limits, l.price < m.price) ∧
  (b.bid_limits ≠ [] → b.ask_limits ≠ [] → b.bid < b.ask)

/-- The fills carried by a successful result (`[]` on an error). -/
def fillsOf (r : Except Err (List Fill)) : List Fill :=
  match r with
  | .ok fs => fs
  | .error _ => []

/-- Total resting volume of the submitting order's own side of the book. -/
def ownTotal (side : String) (b : OrderBook) : ℚ :=
  if side = "BID" then totalVolumes b.bid_limits else totalVolumes b.ask_limits

/-- Decidable equality for operation results, used to evaluate the model
at concrete inputs. -/
instance exceptDecEq {ε α : Type} [DecidableEq ε] [DecidableEq α] :
    DecidableEq (Except ε α) := fun a b =>
  match a, b with
  | .ok x, .ok y =>
    if h : x = y then .isTrue (by rw [h]) else .isFalse (by intro hh; cases hh; exact h rfl)
  | .error e, .error f =>
    if h : e = f then .isTrue (by rw [h]) else .isFalse (by intro hh; cases hh; exact h rfl)
  | .ok _, .error _ => .isFalse (by intro hh; cases hh)
  | .error _, .ok _ => .isFalse (by intro hh; cases hh)

/-- A concrete example book: one resting ask level `100 × 5` (built by a
successful `limit` call on a fresh book, as in the spec scenarios). -/
def bookA : OrderBook := ((OrderBook.init "S").limit "ASK" 100 5 0 false none).2

/-- A concrete example book: resting ask levels `100 × 5` and `200 × 7`. -/
def bookA2 : OrderBook := (bookA.limit "ASK" 200 7 0 false none).2

/-- A concrete example book: resting bid level `90 × 10` and ask level
`100 × 5` (both sides non-empty, built by two successful `limit` calls). -/
def bookB : OrderBook := (bookA.limit "BID" 90 10 1 false none).2

/-- Halving agrees with division by two (see `half`). -/
theorem half_eq_div (q : ℚ) : half q = q / 2 := by
  unfold half
  rw [Rat.mkRat_eq_div]
  push_cast
  rw [← div_div]
  congr 1
  exact_mod_cast Rat.num_div_den q

/-- `qadd` agrees with rational addition. -/
theorem qadd_eq_add (a b : ℚ) : qadd a b = a + b := by
  unfold qadd
  rw [Rat.mkRat_eq_div]
  have ha : ((a.den : ℚ)) ≠ 0 := by exact_mod_cast a.den_nz
  have hb : ((b.den : ℚ)) ≠ 0 := by exact_mod_cast b.den_nz
  conv_rhs => rw [← Rat.num_div_den a, ← Rat.num_div_den b]
  push_cast
  field_simp

/-- `qsub` agrees with rational subtraction. -/
theorem qsub_eq_sub (a b : ℚ) : qsub a b = a - b := by
  unfold qsub
  rw [Rat.mkRat_eq_div]
  have ha : ((a.den : ℚ)) ≠ 0 := by exact_mod_cast a.den_nz
  have hb : ((b.den : ℚ)) ≠ 0 := by exact_mod_cast b.den_nz
  conv_rhs => rw [← Rat.num_div_den a, ← Rat.num_div_den b]
  push_cast
  field_simp
  ring

/-- `qneg` agrees with rational negation. -/
theorem qneg_eq_neg (a : ℚ) : qneg a = -a := by
  unfold qneg
  rw [Rat.mkRat_eq_div]
  push_cast
  rw [neg_div, Rat.num_div_den]

/-- `qsum` agrees with `List.sum`. -/
theorem qsum_eq_sum (xs : List ℚ) : qsum xs = xs.sum := by
  induction xs with
  | nil => rfl
  | cons x rest ih => simp [qsum, List.foldr_cons, qadd_eq_add, List.sum_cons] at ih ⊢; rw [ih]

/-! ### Lemmas about the matching walk -/

/-- Volume conservation of `consumeOrders`: consumed fills plus leftover
equal the requested volume. -/
theorem consumeOrders_conserve (v : ℚ) (os : List BookOrder) :
    fillsSum (consumeOrders v os).2.1 + (consumeOrders v os).1 = v := by
  induction os generalizing v with
  | nil => simp [consumeOrders, fillsSum, qsum_eq_sum]
  | cons o rest ih =>
    by_cases h1 : v ≤ 0
    · simp [consumeOrders, h1, fillsSum, qsum_eq_sum]
    · by_cases h2 : o.volume ≤ v
      · have := ih (qsub v o.volume)
        simp only [consumeOrders, if_neg h1, if_pos h2, fillsSum, qsum_eq_sum, qsub_eq_sub,
          List.map_cons, List.sum_cons] at this ⊢
        linarith
      · simp [consumeOrders, h1, h2, fillsSum, qsum_eq_sum]

/-- A nonnegative request leaves a nonnegative leftover. -/
theorem consumeOrders_nonneg (v : ℚ) (os : List BookOrder) (hv : 0 ≤ v) :
    0 ≤ (consumeOrders v os).1 := by
  induction os generalizing v with
  | nil => simpa [consumeOrders]
  | cons o rest ih =>
    by_cases h1 : v ≤ 0
    · simpa [consumeOrders, h1]
    · by_cases h2 : o.volume ≤ v
      · simp only [consumeOrders, if_neg h1, if_pos h2]
        exact ih _ (by rw [qsub_eq_sub]; linarith)
      · simp [consumeOrders, h1, h2]

/-- If `consumeOrders` leaves orders behind, the request was exhausted. -/
theorem consumeOrders_stop (v : ℚ) (os : List BookOrder)
    (h : (consumeOrders v os).2.2 ≠ []) : (consumeOrders v os).1 ≤ 0 := by
  induction os generalizing v with
  | nil => simp [consumeOrders] at h
  | cons o rest ih =>
    by_cases h1 : v ≤ 0
    · simp [consumeOrders, h1]
    · by_cases h2 : o.volume ≤ v
      · simp only [consumeOrders, if_neg h1, if_pos h2] at h ⊢
        exact ih _ h
      · simp [consumeOrders, h1, h2]

/-- Volume conservation of the matching walk: fills plus leftover equal
the aggressor volume. -/
theorem fillLevels_conserve (crosses : ℚ → Bool) (v : ℚ) (ls : List PriceLevel) :
    fillsSum (fillLevels crosses v ls).2.1 + (fillLevels crosses v ls).1 = v := by
  induction ls generalizing v with
  | nil => simp [fillLevels, fillsSum, qsum_eq_sum]
  | cons lvl rest ih =>
    by_cases h1 : v ≤ 0
    · simp [fillLevels, h1, fillsSum, qsum_eq_sum]
    · by_cases h2 : crosses lvl.price
      · rcases hc : (consumeOrders v lvl.orders).2.2 with - | ⟨o, os⟩
        · have hcons := consumeOrders_conserve v lvl.orders
          have hrec := ih (consumeOrders v lvl.orders).1
          simp only [fillLevels, if_neg h1, if_pos h2, hc, fillsSum, qsum_eq_sum,
            List.map_append, List.sum_append] at hcons hrec ⊢
          linarith
        · have hcons := consumeOrders_conserve v lvl.orders
          simpa [fillLevels, h1, h2, hc] using hcons
      · simp [fillLevels, h1, h2, fillsSum, qsum_eq_sum]

/-- A nonnegative aggressor volume leaves a nonnegative leftover. -/
theorem fillLevels_nonneg (crosses : ℚ → Bool) (v : ℚ) (ls : List PriceLevel)
    (hv : 0 ≤ v) : 0 ≤ (fillLevels crosses v ls).1 := by
  induction ls generalizing v with
  | nil => simpa [fillLevels]
  | cons lvl rest ih =>
    by_cases h1 : v ≤ 0
    · simpa [fillLevels, h1]
    · by_cases h2 : crosses lvl.price
      · rcases hc : (consumeOrders v lvl.orders).2.2 with - | ⟨o, os⟩
        · simp only [fillLevels, if_neg h1, if_pos h2, hc]
          exact ih _ (consumeOrders_nonneg v lvl.orders (le_of_lt (not_le.1 h1)))
        · simp only [fillLevels, if_neg h1, if_pos h2, hc]
          exact consumeOrders_nonneg v lvl.orders (le_of_lt (not_le.1 h1))
      · simpa [fillLevels, h1, h2]

/-- If the walk leaves positive volume, the remaining book is empty or
its best (head) level does not cross. -/
theorem fillLevels_stop (crosses : ℚ → Bool) (v : ℚ) (ls : List PriceLevel)
    (h : 0 < (fillLevels crosses v ls).1) :
    (fillLevels crosses v ls).2.2 = [] ∨
    ∃ l rest, (fillLevels crosses v ls).2.2 = l :: rest ∧ crosses l.price = false := by
  induction ls generalizing v with
  | nil => left; simp [fillLevels]
  | cons lvl rest ih =>
    by_cases h1 : v ≤ 0
    · simp only [fillLevels, if_pos h1] at h
      exact absurd h (not_lt.2 h1)
    · by_cases h2 : crosses lvl.price
      · rcases hc : (consumeOrders v lvl.orders).2.2 with - | ⟨o, os⟩
        · have h' : 0 < (fillLevels crosses (consumeOrders v lvl.orders).1 rest).1 := by
            simpa only [fillLevels, if_neg h1, if_pos h2, hc] using h
          simpa only [fillLevels, if_neg h1, if_pos h2, hc] using ih _ h'
        · have hstop := consumeOrders_stop v lvl.orders (by simp [hc])
          simp only [fillLevels, if_neg h1, if_pos h2, hc] at h
          exact absurd h (not_lt.2 hstop)
      · right
        refine ⟨lvl, rest, by simp [fillLevels, h1, h2], by simpa using h2⟩

/-- Every level left by the walk sits at a price the book already had. -/
theorem fillLevels_price_mem (crosses : ℚ → Bool) (v : ℚ) (ls : List PriceLevel) :
    ∀ l2 ∈ (fillLevels crosses v ls).2.2, ∃ l ∈ ls, l2.price = l.price := by
  induction ls generalizing v with
  | nil => simp [fillLevels]
  | cons lvl rest ih =>
    by_cases h1 : v ≤ 0
    · simp only [fillLevels, if_pos h1]
      exact fun l2 hl2 => ⟨l2, hl2, rfl⟩
    · by_cases h2 : crosses lvl.price
      · rcases hc : (consumeOrders v lvl.orders).2.2 with - | ⟨o, os⟩
        · simp only [fillLevels, if_neg h1, if_pos h2, hc]
          intro l2 hl2
          obtain ⟨l, hl, he⟩ := ih _ l2 hl2
          exact ⟨l, List.mem_cons_of_mem _ hl, he⟩
        · simp only [fillLevels, if_neg h1, if_pos h2, hc]
          intro l2 hl2
          rcases List.mem_cons.1 hl2 with he | hm
          · exact ⟨lvl, List.mem_cons_self _ _, by rw [he]⟩
          · exact ⟨l2, List.mem_cons_of_mem _ hm, rfl⟩
      · simp only [fillLevels, if_neg h1, if_neg h2]
        exact fun l2 hl2 => ⟨l2, hl2, rfl⟩

/-- The walk preserves any pairwise price relation of the book. -/
theorem fillLevels_pairwise (S : ℚ → ℚ → Prop) (crosses : ℚ → Bool) (v : ℚ)
    (ls : List PriceLevel) (h : ls.Pairwise fun a b => S a.price b.price) :
    (fillLevels crosses v ls).2.2.Pairwise fun a b => S a.price b.price := by
  induction ls generalizing v with
  | nil => simp [fillLevels]
  | cons lvl rest ih =>
    rw [List.pairwise_cons] at h
    by_cases h1 : v ≤ 0
    · simp only [fillLevels, if_pos h1]
      exact List.pairwise_cons.2 ⟨h.1, h.2⟩
    · by_cases h2 : crosses lvl.price
      · rcases hc : (consumeOrders v lvl.orders).2.2 with - | ⟨o, os⟩
        · simp only [fillLevels, if_neg h1, if_pos h2, hc]
          exact ih _ h.2
        · simp only [fillLevels, if_neg h1, if_pos h2, hc]
          exact List.pairwise_cons.2 ⟨fun b hb => h.1 b hb, h.2⟩
      · simp only [fillLevels, if_neg h1, if_neg h2]
        exact List.pairwise_cons.2 ⟨h.1, h.2⟩

/-! ### Lemmas about insertion and the crossing predicates -/

/-- A level of the book after an insertion sits at the inserted price or
at a price the book already had. -/
theorem insertLevelOrder_price_mem (before : ℚ → ℚ → Bool) (o : BookOrder)
    (ls : List PriceLevel) :
    ∀ l2 ∈ insertLevelOrder before o ls,
      l2.price = o.price ∨ ∃ l ∈ ls, l2.price = l.price := by
  induction ls with
  | nil => simp [insertLevelOrder]
  | cons lvl rest ih =>
    by_cases h1 : o.price = lvl.price
    · simp only [insertLevelOrder, if_pos h1]
      intro l2 hl2
      rcases List.mem_cons.1 hl2 with he | hm
      · exact .inr ⟨lvl, List.mem_cons_self _ _, by rw [he]⟩
      · exact .inr ⟨l2, List.mem_cons_of_mem _ hm, rfl⟩
    · by_cases h2 : before o.price lvl.price
      · simp only [insertLevelOrder, if_neg h1, if_pos h2]
        intro l2 hl2
        rcases List.mem_cons.1 hl2 with he | hm
        · exact .inl (by rw [he])
        · exact .inr ⟨l2, hm, rfl⟩
      · simp only [insertLevelOrder, if_neg h1, if_neg h2]
        intro l2 hl2
        rcases List.mem_cons.1 hl2 with he | hm
        · exact .inr ⟨lvl, List.mem_cons_self _ _, by rw [he]⟩
        · rcases ih l2 hm with h3 | ⟨l, hl, h3⟩
          · exact .inl h3
          · exact .inr ⟨l, List.mem_cons_of_mem _ hl, h3⟩

/-- Insertion preserves a strict pairwise price order compatible with the
priority comparator. -/
theorem insertLevelOrder_pairwise (before : ℚ → ℚ → Bool) (S : ℚ → ℚ → Prop)
    (hb : ∀ a b, before a b = true → S a b)
    (hc : ∀ a b, a ≠ b → before a b = false → S b a)
    (htr : ∀ a b c, S a b → S b c → S a c)
    (o : BookOrder) (ls : List PriceLevel)
    (h : ls.Pairwise fun a b => S a.price b.price) :
    (insertLevelOrder before o ls).Pairwise fun a b => S a.price b.price := by
  induction ls with
  | nil => simp [insertLevelOrder]
  | cons lvl rest ih =>
    rw [List.pairwise_cons] at h
    by_cases h1 : o.price = lvl.price
    · simp only [insertLevelOrder, if_pos h1]
      exact List.pairwise_cons.2 ⟨h.1, h.2⟩
    · by_cases h2 : before o.price lvl.price
      · simp only [insertLevelOrder, if_neg h1, if_pos h2]
        refine List.pairwise_cons.2 ⟨?_, List.pairwise_cons.2 ⟨h.1, h.2⟩⟩
        intro b hb2
        rcases List.mem_cons.1 hb2 with he | hm
        · rw [he]; exact hb _ _ h2
        · exact htr _ _ _ (hb _ _ h2) (h.1 b hm)
      · simp only [insertLevelOrder, if_neg h1, if_neg h2]
        refine List.pairwise_cons.2 ⟨?_, ih h.2⟩
        intro b hb2
        rcases insertLevelOrder_price_mem before o rest b hb2 with h3 | ⟨l, hl, h3⟩
        · rw [h3]
          exact hc _ _ h1 (by simpa using h2)
        · rw [h3]; exact h.1 l hl

/-- Insertion adds exactly the inserted order's volume to the side's
total resting volume. -/
theorem insertLevelOrder_total (before : ℚ → ℚ → Bool) (o : BookOrder)
    (ls : List PriceLevel) :
    totalVolumes (insertLevelOrder before o ls) = totalVolumes ls + o.volume := by
  induction ls with
  | nil => simp [insertLevelOrder, totalVolumes, qsum_eq_sum, PriceLevel.total_vol]
  | cons lvl rest ih =>
    by_cases h1 : o.price = lvl.price
    · simp only [insertLevelOrder, if_pos h1, totalVolumes, qsum_eq_sum, List.map_cons,
        List.sum_cons, PriceLevel.total_vol, List.map_append, List.sum_append]
      simp
      ring
    · by_cases h2 : before o.price lvl.price
      · simp only [insertLevelOrder, if_neg h1, if_pos h2, totalVolumes, qsum_eq_sum,
          List.map_cons, List.sum_cons, PriceLevel.total_vol]
        simp
        ring
      · simp only [insertLevelOrder, if_neg h1, if_neg h2, totalVolumes, qsum_eq_sum,
          List.map_cons, List.sum_cons] at ih ⊢
        rw [ih]
        ring

/-- A non-crossing buy threshold lies strictly below the resting price. -/
theorem crossBuy_false {t q : ℚ} (h : crossBuy t q = false) : t < q ∧ t ≠ 0 := by
  simp only [crossBuy, Bool.or_eq_false_iff, decide_eq_false_iff_not] at h
  exact ⟨not_le.1 h.2, h.1⟩

/-- A non-crossing sell threshold lies strictly above the resting price. -/
theorem crossSell_false {t q : ℚ} (h : crossSell t q = false) : q < t ∧ t ≠ 0 := by
  simp only [crossSell, Bool.or_eq_false_iff, decide_eq_false_iff_not] at h
  exact ⟨not_le.1 h.2, h.1⟩

/-! ### Lemmas about refresh and the common mutation tail -/

/-- Refresh never touches the bid side book. -/
theorem refresh_bid_limits (b : OrderBook) : (b.refresh).2.bid_limits = b.bid_limits := by
  simp only [OrderBook.refresh]
  split
  · rfl
  · split <;> rfl

/-- Refresh never touches the ask side book. -/
theorem refresh_ask_limits (b : OrderBook) : (b.refresh).2.ask_limits = b.ask_limits := by
  simp only [OrderBook.refresh]
  split
  · rfl
  · split <;> rfl

/-- Refresh never touches `order_count`. -/
theorem refresh_count (b : OrderBook) : (b.refresh).2.order_count = b.order_count := by
  simp only [OrderBook.refresh]
  split
  · rfl
  · split <;> rfl

/-- Refresh never touches `last_datetime`. -/
theorem refresh_last (b : OrderBook) : (b.refresh).2.last_datetime = b.last_datetime := by
  simp only [OrderBook.refresh]
  split
  · rfl
  · split <;> rfl

/-- Whatever happens afterwards, refresh leaves `bid` at the clamped best
bid (the assignment at the top of the method always executes). -/
theorem refresh_bid (b : OrderBook) :
    (b.refresh).2.bid = clampBid (sideMax b.bid_limits) := by
  simp only [OrderBook.refresh]
  split
  · rfl
  · split <;> rfl

/-- Whatever happens afterwards, refresh leaves `ask` at the clamped best
ask. -/
theorem refresh_ask (b : OrderBook) :
    (b.refresh).2.ask = clampAsk (sideMin b.ask_limits) := by
  simp only [OrderBook.refresh]
  split
  · rfl
  · split <;> rfl

/-- When every resting price is strictly between `0` and the sentinel and
every bid price is below every ask price, a refresh on a book with both
sides non-empty leaves a strictly positive derived spread:
`bid < ask` on the resulting state. -/
theorem refresh_cross (b : OrderBook)
    (hbid : ∀ l ∈ b.bid_limits, 0 < l.price ∧ l.price < sentinel)
    (hask : ∀ l ∈ b.ask_limits, 0 < l.price ∧ l.price < sentinel)
    (hcr : ∀ l ∈ b.bid_limits, ∀ m ∈ b.ask_limits, l.price < m.price)
    (hbne : b.bid_limits ≠ []) (hane : b.ask_limits ≠ []) :
    (b.refresh).2.bid < (b.refresh).2.ask := by
  obtain ⟨lb, restb, hbeq⟩ := List.exists_cons_of_ne_nil hbne
  obtain ⟨la, resta, haeq⟩ := List.exists_cons_of_ne_nil hane
  have hlbm : lb ∈ b.bid_limits := by rw [hbeq]; exact List.mem_cons_self _ _
  have hlam : la ∈ b.ask_limits := by rw [haeq]; exact List.mem_cons_self _ _
  have hlb := hbid lb hlbm
  have hla := hask la hlam
  have hx := hcr lb hlbm la hlam
  have h1 : clampBid (sideMax b.bid_limits) = lb.price := by
    rw [hbeq]
    simp [sideMax, clampBid, setQuote, not_lt.2 hlb.2.le, not_lt.2 hlb.1.le]
  have h2 : clampAsk (sideMin b.ask_limits) = la.price := by
    rw [haeq]
    simp [sideMin, clampAsk, setQuote, not_lt.2 hla.2.le, not_lt.2 hla.1.le]
  rw [refresh_bid, refresh_ask, h1, h2]
  exact hx

/-- A refresh on an empty ask side propagates the exception from the
`self.spread = None` assignment in the except handler. -/
theorem refresh_empty_ask (b : OrderBook) (h : b.ask_limits = []) :
    (b.refresh).1 = .error .noneCompare := by
  have h2 : clampAsk (sideMin b.ask_limits) = error_ask := by
    rw [h]
    rfl
  simp [OrderBook.refresh, h2]

/-- A refresh that completes leaves `spread = ask - bid` and
`midquote = (ask + bid) / 2` in terms of the refreshed `bid`/`ask`. -/
theorem refresh_ok_fields (b b2 : OrderBook) (h : b.refresh = (.ok (), b2)) :
    b2.spread = b2.ask - b2.bid ∧ b2.midquote = (b2.ask + b2.bid) / 2 := by
  simp only [OrderBook.refresh] at h
  split at h
  · simp at h
  · split at h
    · simp at h
    · injection h with h1 h2
      subst h2
      refine ⟨qsub_eq_sub _ _, ?_⟩
      show half (qadd _ _) = _
      rw [half_eq_div, qadd_eq_add]

/-- A state produced by a completing refresh is a refresh fixed point,
even after `order_count`/`last_datetime` bookkeeping: refreshing it again
succeeds and changes nothing (the derived fields already hold the values
recomputed from the side books). -/
theorem refresh_fix (b b2 : OrderBook) (h : b.refresh = (.ok (), b2))
    (n : Nat) (d : Option Nat) :
    ({ b2 with order_count := n, last_datetime := d } : OrderBook).refresh
      = (.ok (), { b2 with order_count := n, last_datetime := d }) := by
  simp only [OrderBook.refresh] at h
  by_cases hc1 : clampAsk (sideMin b.ask_limits) = error_ask ∨
      qsub (clampAsk (sideMin b.ask_limits)) (clampBid (sideMax b.bid_limits)) < 0
  · rw [if_pos hc1] at h
    exact absurd (congrArg Prod.fst h) (by simp)
  · rw [if_neg hc1] at h
    by_cases hc2 : half (qadd (clampAsk (sideMin b.ask_limits)) (clampBid (sideMax b.bid_limits))) < 0
    · rw [if_pos hc2] at h
      exact absurd (congrArg Prod.fst h) (by simp)
    · rw [if_neg hc2] at h
      have hb2 := congrArg Prod.snd h
      simp only at hb2
      subst hb2
      simp only [OrderBook.refresh]
      rw [if_neg hc1, if_neg hc2]

/-- The mutation tail never touches the bid side book. -/
theorem finish_bid_limits (b : OrderBook) (fills : List Fill) (ts : Nat) :
    (OrderBook.finish b fills ts).2.bid_limits = b.bid_limits := by
  have h2 := refresh_bid_limits b
  rcases h : b.refresh with ⟨r, b2⟩
  rw [h] at h2
  rcases r with e | u <;> simpa [OrderBook.finish, h] using h2

/-- The mutation tail never touches the ask side book. -/
theorem finish_ask_limits (b : OrderBook) (fills : List Fill) (ts : Nat) :
    (OrderBook.finish b fills ts).2.ask_limits = b.ask_limits := by
  have h2 := refresh_ask_limits b
  rcases h : b.refresh with ⟨r, b2⟩
  rw [h] at h2
  rcases r with e | u <;> simpa [OrderBook.finish, h] using h2

/-- The derived bid after the mutation tail is the refreshed bid. -/
theorem finish_bid (b : OrderBook) (fills : List Fill) (ts : Nat) :
    (OrderBook.finish b fills ts).2.bid = (b.refresh).2.bid := by
  rcases h : b.refresh with ⟨r, b2⟩
  rcases r with e | u <;> simp [OrderBook.finish, h]

/-- The derived ask after the mutation tail is the refreshed ask. -/
theorem finish_ask (b : OrderBook) (fills : List Fill) (ts : Nat) :
    (OrderBook.finish b fills ts).2.ask = (b.refresh).2.ask := by
  rcases h : b.refresh with ⟨r, b2⟩
  rcases r with e | u <;> simp [OrderBook.finish, h]

/-- Behaviour of the mutation tail on success and on a refresh error:
success increments `order_count`, stamps `last_datetime` and leaves a
refresh fixed point; an error leaves both counters untouched. -/
theorem finish_cases (b : OrderBook) (fills : List Fill) (ts : Nat) :
    ((OrderBook.finish b fills ts).1.isOk = true →
       (OrderBook.finish b fills ts).1 = .ok fills ∧
       (OrderBook.finish b fills ts).2.order_count = b.order_count + 1 ∧
       (OrderBook.finish b fills ts).2.last_datetime = some ts ∧
       (OrderBook.finish b fills ts).2.refresh = (.ok (), (OrderBook.finish b fills ts).2)) ∧
    ((OrderBook.finish b fills ts).1.isOk = false →
       (OrderBook.finish b fills ts).2.order_count = b.order_count ∧
       (OrderBook.finish b fills ts).2.last_datetime = b.last_datetime) := by
  have hcnt := refresh_count b
  have hlast := refresh_last b
  rcases h : b.refresh with ⟨r, b2⟩
  rw [h] at hcnt hlast
  simp only at hcnt hlast
  rcases r with e | u
  · exact ⟨fun hok => by simp [OrderBook.finish, h, Except.isOk, Except.toBool] at hok,
      fun _ => by simp [OrderBook.finish, h, hcnt, hlast]⟩
  · cases u
    refine ⟨fun _ => ⟨by simp [OrderBook.finish, h], by simp [OrderBook.finish, h, hcnt],
      by simp [OrderBook.finish, h], ?_⟩,
      fun hbad => by simp [OrderBook.finish, h, Except.isOk, Except.toBool] at hbad⟩
    have hfix := refresh_fix b b2 h (b2.order_count + 1) (some ts)
    simpa [OrderBook.finish, h] using hfix

/-! ### The no-crossed-book invariant -/

/-- Insertion into the descending bid book preserves strict descending
order. -/
theorem insert_bid_pairwise (o : BookOrder) (ls : List PriceLevel)
    (h : ls.Pairwise fun a c => c.price < a.price) :
    (insertLevelOrder bidBefore o ls).Pairwise fun a c => c.price < a.price :=
  insertLevelOrder_pairwise bidBefore (fun a c => c < a)
    (fun a c hb => by simpa [bidBefore] using hb)
    (fun a c hne hb =>
      lt_of_le_of_ne (not_lt.1 (by simpa [bidBefore] using hb)) hne)
    (fun _ _ _ hab hbc => lt_trans hbc hab) o ls h

/-- Insertion into the ascending ask book preserves strict ascending
order. -/
theorem insert_ask_pairwise (o : BookOrder) (ls : List PriceLevel)
    (h : ls.Pairwise fun a c => a.price < c.price) :
    (insertLevelOrder askBefore o ls).Pairwise fun a c => a.price < c.price :=
  insertLevelOrder_pairwise askBefore (fun a c => a < c)
    (fun a c hb => by simpa [askBefore] using hb)
    (fun a c hne hb =>
      lt_of_le_of_ne (not_lt.1 (by simpa [askBefore] using hb)) (fun he => hne he.symm))
    (fun _ _ _ hab hbc => lt_trans hab hbc) o ls h

/-- `BookInv` from its side-book conjuncts after the mutation tail. -/
theorem finish_inv (b : OrderBook) (fills : List Fill) (ts : Nat)
    (h1 : b.bid_limits.Pairwise fun a c => c.price < a.price)
    (h2 : b.ask_limits.Pairwise fun a c => a.price < c.price)
    (h3 : ∀ l ∈ b.bid_limits, 0 < l.price ∧ l.price < sentinel)
    (h4 : ∀ l ∈ b.ask_limits, 0 < l.price ∧ l.price < sentinel)
    (h5 : ∀ l ∈ b.bid_limits, ∀ m ∈ b.ask_limits, l.price < m.price) :
    BookInv (OrderBook.finish b fills ts).2 := by
  have hbl := finish_bid_limits b fills ts
  have hal := finish_ask_limits b fills ts
  refine ⟨?_, ?_, ?_, ?_, ?_, ?_⟩
  · rw [hbl]; exact h1
  · rw [hal]; exact h2
  · rw [hbl]; exact h3
  · rw [hal]; exact h4
  · rw [hbl]; intro l hl; rw [hal]; exact h5 l hl
  · rw [hbl, hal]
    intro hbne hane
    rw [finish_bid, finish_ask]
    exact refresh_cross b h3 h4 h5 hbne hane

/-- The matching-and-resting path of `limit` preserves the invariant when
the limit price is strictly between `0` and the sentinel. -/
theorem limitCore_inv (b : OrderBook) (side : String) (p v : ℚ) (ts : Nat)
    (c : Bool) (oid : Nat) (hinv : BookInv b) (hp0 : 0 < p) (hps : p < sentinel) :
    BookInv (b.limitCore side p v ts c oid).2 := by
  obtain ⟨h1, h2, h3, h4, h5, h6⟩ := hinv
  by_cases hs1 : side = "BID"
  · simp only [OrderBook.limitCore, if_pos hs1]
    have hfe : fill p v "BUY" b.ask_limits = fillLevels (crossBuy p) v b.ask_limits := rfl
    rw [hfe]
    have ha_pair := fillLevels_pairwise (· < ·) (crossBuy p) v b.ask_limits h2
    have ha_mem := fillLevels_price_mem (crossBuy p) v b.ask_limits
    have ha_bound : ∀ l ∈ (fillLevels (crossBuy p) v b.ask_limits).2.2,
        0 < l.price ∧ l.price < sentinel := by
      intro l hl
      obtain ⟨l0, hl0, he⟩ := ha_mem l hl
      rw [he]; exact h4 l0 hl0
    by_cases hrest : 0 < (fillLevels (crossBuy p) v b.ask_limits).1 ∧ c = false
    · rw [if_pos hrest]
      refine finish_inv _ _ _ (insert_bid_pairwise _ _ h1) ha_pair ?_ ha_bound ?_
      · intro l hl
        rcases insertLevelOrder_price_mem bidBefore _ b.bid_limits l hl with hlp | ⟨l0, hl0, hlp⟩
        · rw [hlp]; exact ⟨hp0, hps⟩
        · rw [hlp]; exact h3 l0 hl0
      · intro l hl m hm
        rcases insertLevelOrder_price_mem bidBefore _ b.bid_limits l hl with hlp | ⟨l0, hl0, hlp⟩
        · rcases fillLevels_stop (crossBuy p) v b.ask_limits hrest.1 with hnil |
            ⟨hd, tl, heq, hcf⟩
          · rw [hnil] at hm; cases hm
          · have hpd := (crossBuy_false hcf).1
            rw [heq] at hm
            rcases List.mem_cons.1 hm with he | hmtl
            · rw [hlp, he]; exact hpd
            · have hpw := ha_pair
              rw [heq] at hpw
              have := (List.pairwise_cons.1 hpw).1 m hmtl
              rw [hlp]; exact lt_trans hpd this
        · obtain ⟨m0, hm0, hmp⟩ := ha_mem m hm
          rw [hlp, hmp]; exact h5 l0 hl0 m0 hm0
    · rw [if_neg hrest]
      refine finish_inv _ _ _ h1 ha_pair h3 ha_bound ?_
      intro l hl m hm
      obtain ⟨m0, hm0, hmp⟩ := ha_mem m hm
      rw [hmp]; exact h5 l hl m0 hm0
  · by_cases hs2 : side = "ASK"
    · simp only [OrderBook.limitCore, if_neg hs1, if_pos hs2]
      have hfe : fill p v "SELL" b.bid_limits = fillLevels (crossSell p) v b.bid_limits := rfl
      rw [hfe]
      have hb_pair := fillLevels_pairwise (fun a c => c < a) (crossSell p) v b.bid_limits h1
      have hb_mem := fillLevels_price_mem (crossSell p) v b.bid_limits
      have hb_bound : ∀ l ∈ (fillLevels (crossSell p) v b.bid_limits).2.2,
          0 < l.price ∧ l.price < sentinel := by
        intro l hl
        obtain ⟨l0, hl0, he⟩ := hb_mem l hl
        rw [he]; exact h3 l0 hl0
      by_cases hrest : 0 < (fillLevels (crossSell p) v b.bid_limits).1 ∧ c = false
      · rw [if_pos hrest]
        refine finish_inv _ _ _ hb_pair (insert_ask_pairwise _ _ h2) hb_bound ?_ ?_
        · intro l hl
          rcases insertLevelOrder_price_mem askBefore _ b.ask_limits l hl with hlp | ⟨l0, hl0, hlp⟩
          · rw [hlp]; exact ⟨hp0, hps⟩
          · rw [hlp]; exact h4 l0 hl0
        · intro l hl m hm
          rcases insertLevelOrder_price_mem askBefore _ b.ask_limits m hm with hmp | ⟨m0, hm0, hmp⟩
          · rcases fillLevels_stop (crossSell p) v b.bid_limits hrest.1 with hnil |
              ⟨hd, tl, heq, hcf⟩
            · rw [hnil] at hl; cases hl
            · have hpd := (crossSell_false hcf).1
              rw [heq] at hl
              rcases List.mem_cons.1 hl with he | hltl
              · rw [hmp, he]; exact hpd
              · have hpw := hb_pair
                rw [heq] at hpw
                have := (List.pairwise_cons.1 hpw).1 l hltl
                rw [hmp]; exact lt_trans this hpd
          · obtain ⟨l0, hl0, hlp⟩ := hb_mem l hl
            rw [hlp, hmp]; exact h5 l0 hl0 m0 hm0
      · rw [if_neg hrest]
        refine finish_inv _ _ _ hb_pair h2 hb_bound h4 ?_
        intro l hl m hm
        obtain ⟨l0, hl0, hlp⟩ := hb_mem l hl
        rw [hlp]; exact h5 l0 hl0 m hm
    · simp only [OrderBook.limitCore, if_neg hs1, if_neg hs2]
      exact ⟨h1, h2, h3, h4, h5, h6⟩

/-- `limit` preserves the invariant, provided the submitted price is
below the sentinel (validation already rejects non-positive prices, and
a rejected call leaves the state untouched). -/
theorem limit_inv (b : OrderBook) (side : String) (p v : ℚ) (ts : Nat)
    (c : Bool) (oid : Option Nat) (hinv : BookInv b) (hps : p < sentinel) :
    BookInv (b.limit side p v ts c oid).2 := by
  simp only [OrderBook.limit]
  by_cases hv : v = 0
  · rw [if_pos hv]; exact hinv
  · rw [if_neg hv]
    by_cases hp : p ≤ 0
    · rw [if_pos hp]; exact hinv
    · rw [if_neg hp]
      exact limitCore_inv b side p v ts c _ hinv (not_le.1 hp) hps

/-- The matching path of `market` preserves the invariant. -/
theorem marketCore_inv (b : OrderBook) (side : String) (v : ℚ) (ts : Nat)
    (hinv : BookInv b) : BookInv (b.marketCore side v ts).2 := by
  obtain ⟨h1, h2, h3, h4, h5, h6⟩ := hinv
  by_cases hs1 : side = "BID"
  · simp only [OrderBook.marketCore, if_pos hs1]
    have hfe : fill 0 v "BUY" b.ask_limits = fillLevels (crossBuy 0) v b.ask_limits := rfl
    rw [hfe]
    have ha_pair := fillLevels_pairwise (· < ·) (crossBuy 0) v b.ask_limits h2
    have ha_mem := fillLevels_price_mem (crossBuy 0) v b.ask_limits
    refine finish_inv _ _ _ h1 ha_pair h3 ?_ ?_
    · intro l hl
      obtain ⟨l0, hl0, he⟩ := ha_mem l hl
      rw [he]; exact h4 l0 hl0
    · intro l hl m hm
      obtain ⟨m0, hm0, hmp⟩ := ha_mem m hm
      rw [hmp]; exact h5 l hl m0 hm0
  · by_cases hs2 : side = "ASK"
    · simp only [OrderBook.marketCore, if_neg hs1, if_pos hs2]
      have hfe : fill 0 v "SELL" b.bid_limits = fillLevels (crossSell 0) v b.bid_limits := rfl
      rw [hfe]
      have hb_pair := fillLevels_pairwise (fun a c => c < a) (crossSell 0) v b.bid_limits h1
      have hb_mem := fillLevels_price_mem (crossSell 0) v b.bid_limits
      refine finish_inv _ _ _ hb_pair h2 ?_ h4 ?_
      · intro l hl
        obtain ⟨l0, hl0, he⟩ := hb_mem l hl
        rw [he]; exact h3 l0 hl0
      · intro l hl m hm
        obtain ⟨l0, hl0, hlp⟩ := hb_mem l hl
        rw [hlp]; exact h5 l0 hl0 m hm
    · simp only [OrderBook.marketCore, if_neg hs1, if_neg hs2]
      exact ⟨h1, h2, h3, h4, h5, h6⟩

/-- `market` preserves the invariant. -/
theorem market_inv (b : OrderBook) (side : String) (v : ℚ) (ts : Nat)
    (oid : Option Nat) (hinv : BookInv b) : BookInv (b.market side v ts oid).2 := by
  simp only [OrderBook.market]
  by_cases hv : v = 0
  · rw [if_pos hv]; exact hinv
  · rw [if_neg hv]
    exact marketCore_inv b side v ts hinv

/-- One call of a price-bounded sequence preserves the invariant. -/
theorem applyCall_inv (b : OrderBook) (c : Call) (hinv : BookInv b)
    (hc : c.priceOK) : BookInv (applyCall b c) := by
  cases c with
  | market side v ts oid => exact market_inv b side v ts oid hinv
  | limit side p v ts cl oid => exact limit_inv b side p v ts cl oid hinv hc

/-- A fresh book satisfies the invariant. -/
theorem init_inv (s : String) : BookInv (OrderBook.init s) := by
  refine ⟨?_, ?_, ?_, ?_, ?_, ?_⟩ <;> simp [OrderBook.init]

/-- Running a price-bounded call sequence preserves the invariant. -/
theorem runCalls_inv (cs : List Call) (b : OrderBook) (hinv : BookInv b)
    (h : ∀ c ∈ cs, c.priceOK) : BookInv (runCalls b cs) := by
  induction cs generalizing b with
  | nil => exact hinv
  | cons c rest ih =>
    exact ih (applyCall b c)
      (applyCall_inv b c hinv (h c (List.mem_cons_self _ _)))
      (fun c2 hc2 => h c2 (List.mem_cons_of_mem _ hc2))

/-- The only exception refresh can propagate is the one from the
`None` assignments. -/
theorem refresh_err (b : OrderBook) :
    (b.refresh).1 = .ok () ∨ (b.refresh).1 = .error .noneCompare := by
  simp only [OrderBook.refresh]
  split
  · right; rfl
  · split
    · right; rfl
    · left; rfl

/-- The mutation tail never raises the invalid-volume error. -/
theorem finish_not_invalidVolume (b : OrderBook) (fills : List Fill) (ts : Nat) :
    (OrderBook.finish b fills ts).1 ≠ .error .invalidVolume := by
  have he := refresh_err b
  rcases h : b.refresh with ⟨r, b2⟩
  rw [h] at he
  simp only at he
  rcases r with e | u
  · rcases he with he | he
    · cases he
    · injection he with he2
      subst he2
      simp [OrderBook.finish, h]
  · simp [OrderBook.finish, h]

/-- The counter-only projection of `finish_cases`. -/
theorem finish_counters (b : OrderBook) (fills : List Fill) (ts : Nat) :
    ((OrderBook.finish b fills ts).1.isOk = true →
       (OrderBook.finish b fills ts).2.order_count = b.order_count + 1 ∧
       (OrderBook.finish b fills ts).2.last_datetime = some ts ∧
       (OrderBook.finish b fills ts).2.refresh = (.ok (), (OrderBook.finish b fills ts).2)) ∧
    ((OrderBook.finish b fills ts).1.isOk = false →
       (OrderBook.finish b fills ts).2.order_count = b.order_count ∧
       (OrderBook.finish b fills ts).2.last_datetime = b.last_datetime) :=
  ⟨fun h => ⟨((finish_cases b fills ts).1 h).2.1, ((finish_cases b fills ts).1 h).2.2.1,
    ((finish_cases b fills ts).1 h).2.2.2⟩, (finish_cases b fills ts).2⟩

/-- Counter and timestamp behaviour of `limit`: a successful call
increments `order_count`, stamps `last_datetime` and leaves a refresh
fixed point; a raising call leaves both untouched. -/
theorem limit_counters (b : OrderBook) (side : String) (p v : ℚ) (ts : Nat)
    (c : Bool) (oid : Option Nat) :
    ((b.limit side p v ts c oid).1.isOk = true →
       (b.limit side p v ts c oid).2.order_count = b.order_count + 1 ∧
       (b.limit side p v ts c oid).2.last_datetime = some ts ∧
       (b.limit side p v ts c oid).2.refresh = (.ok (), (b.limit side p v ts c oid).2)) ∧
    ((b.limit side p v ts c oid).1.isOk = false →
       (b.limit side p v ts c oid).2.order_count = b.order_count ∧
       (b.limit side p v ts c oid).2.last_datetime = b.last_datetime) := by
  simp only [OrderBook.limit, OrderBook.limitCore]
  by_cases hv : v = 0
  · rw [if_pos hv]
    exact ⟨fun h => by simp [Except.isOk, Except.toBool] at h, fun _ => ⟨rfl, rfl⟩⟩
  · rw [if_neg hv]
    by_cases hp : p ≤ 0
    · rw [if_pos hp]
      exact ⟨fun h => by simp [Except.isOk, Except.toBool] at h, fun _ => ⟨rfl, rfl⟩⟩
    · rw [if_neg hp]
      by_cases hs1 : side = "BID"
      · rw [if_pos hs1]
        by_cases hrest : 0 < (fill p v "BUY" b.ask_limits).1 ∧ c = false
        · rw [if_pos hrest]; exact finish_counters _ _ _
        · rw [if_neg hrest]; exact finish_counters _ _ _
      · rw [if_neg hs1]
        by_cases hs2 : side = "ASK"
        · rw [if_pos hs2]
          by_cases hrest : 0 < (fill p v "SELL" b.bid_limits).1 ∧ c = false
          · rw [if_pos hrest]; exact finish_counters _ _ _
          · rw [if_neg hrest]; exact finish_counters _ _ _
        · rw [if_neg hs2]
          exact ⟨fun h => by simp [Except.isOk, Except.toBool] at h, fun _ => ⟨rfl, rfl⟩⟩

/-- Counter and timestamp behaviour of `market`, as for `limit`. -/
theorem market_counters (b : OrderBook) (side : String) (v : ℚ) (ts : Nat)
    (oid : Option Nat) :
    ((b.market side v ts oid).1.isOk = true →
       (b.market side v ts oid).2.order_count = b.order_count + 1 ∧
       (b.market side v ts oid).2.last_datetime = some ts ∧
       (b.market side v ts oid).2.refresh = (.ok (), (b.market side v ts oid).2)) ∧
    ((b.market side v ts oid).1.isOk = false →
       (b.market side v ts oid).2.order_count = b.order_count ∧
       (b.market side v ts oid).2.last_datetime = b.last_datetime) := by
  simp only [OrderBook.market, OrderBook.marketCore]
  by_cases hv : v = 0
  · rw [if_pos hv]
    exact ⟨fun h => by simp [Except.isOk, Except.toBool] at h, fun _ => ⟨rfl, rfl⟩⟩
  · rw [if_neg hv]
    by_cases hs1 : side = "BID"
    · rw [if_pos hs1]; exact finish_counters _ _ _
    · rw [if_neg hs1]
      by_cases hs2 : side = "ASK"
      · rw [if_pos hs2]; exact finish_counters _ _ _
      · rw [if_neg hs2]
        exact ⟨fun h => by simp [Except.isOk, Except.toBool] at h, fun _ => ⟨rfl, rfl⟩⟩

/-- `cancel` touches neither the counters nor any derived analytics
field: it performs no refresh, no `order_count` increment, and has no
timestamp to record. -/
theorem cancel_unchanged (b : OrderBook) (side : String) (oid : Nat) :
    (b.cancel side oid).2.order_count = b.order_count ∧
    (b.cancel side oid).2.last_datetime = b.last_datetime ∧
    (b.cancel side oid).2.bid = b.bid ∧
    (b.cancel side oid).2.ask = b.ask ∧
    (b.cancel side oid).2.bid_vol = b.bid_vol ∧
    (b.cancel side oid).2.ask_vol = b.ask_vol ∧
    (b.cancel side oid).2.spread = b.spread ∧
    (b.cancel side oid).2.midquote = b.midquote := by
  simp only [OrderBook.cancel]
  by_cases hs1 : side = "BID"
  · rw [if_pos hs1]
    rcases h : remove_order_by_id oid b.bid_limits with - | ls <;> simp [h]
  · rw [if_neg hs1]
    by_cases hs2 : side = "ASK"
    · rw [if_pos hs2]
      rcases h : remove_order_by_id oid b.ask_limits with - | ls <;> simp [h]
    · rw [if_neg hs2]
      exact ⟨rfl, rfl, rfl, rfl, rfl, rfl, rfl, rfl⟩

/-- The maker-or-cancel wrapper: when it proceeds it returns the
delegated `limit` call's fills, with that call's counter behaviour; when
dropped it returns Python `None` with the book untouched. -/
theorem moc_counters (b : OrderBook) (side : String) (p v : ℚ) (ts : Nat)
    (oid : Option Nat) :
    (∀ fs, (b.maker_or_cancel side p v ts oid).1 = .ok (some fs) →
       (b.maker_or_cancel side p v ts oid).2.order_count = b.order_count + 1 ∧
       (b.maker_or_cancel side p v ts oid).2.last_datetime = some ts) ∧
    ((b.maker_or_cancel side p v ts oid).1 = .ok none →
       (b.maker_or_cancel side p v ts oid).2 = b) := by
  simp only [OrderBook.maker_or_cancel]
  by_cases hv : v = 0
  · rw [if_pos hv]
    exact ⟨fun fs h => by simp at h, fun h => by simp at h⟩
  · rw [if_neg hv]
    by_cases hs1 : side = "BID"
    · rw [if_pos hs1]
      by_cases hcr : p ≤ sideMax b.bid_limits
      · rw [if_pos hcr]
        have hl := limit_counters b "BID" p v ts false (some (oid.getD b.order_count))
        refine ⟨fun fs h => ?_, fun h => ?_⟩
        · rcases hr : (b.limit "BID" p v ts false (some (oid.getD b.order_count))).1 with e | fs2
          · simp [wrapSome, hr, Except.map] at h
          · have := (hl.1 (by simp [Except.isOk, Except.toBool, hr]))
            exact ⟨this.1, this.2.1⟩
        · rcases hr : (b.limit "BID" p v ts false (some (oid.getD b.order_count))).1 with e | fs2 <;>
            simp [wrapSome, hr, Except.map] at h
      · rw [if_neg hcr]
        exact ⟨fun fs h => by simp at h, fun _ => rfl⟩
    · rw [if_neg hs1]
      by_cases hs2 : side = "ASK"
      · rw [if_pos hs2]
        by_cases hcr : sideMin b.ask_limits ≤ p
        · rw [if_pos hcr]
          have hl := limit_counters b "ASK" p v ts false (some (oid.getD b.order_count))
          refine ⟨fun fs h => ?_, fun h => ?_⟩
          · rcases hr : (b.limit "ASK" p v ts false (some (oid.getD b.order_count))).1 with e | fs2
            · simp [wrapSome, hr, Except.map] at h
            · have := (hl.1 (by simp [Except.isOk, Except.toBool, hr]))
              exact ⟨this.1, this.2.1⟩
          · rcases hr : (b.limit "ASK" p v ts false (some (oid.getD b.order_count))).1 with e | fs2 <;>
              simp [wrapSome, hr, Except.map] at h
        · rw [if_neg hcr]
          exact ⟨fun fs h => by simp at h, fun _ => rfl⟩
      · rw [if_neg hs2]
        exact ⟨fun fs h => by simp at h, fun h => by simp at h⟩

/-- The immediate-or-cancel wrapper: as `moc_counters`. -/
theorem ioc_counters (b : OrderBook) (side : String) (p v : ℚ) (ts : Nat)
    (oid : Option Nat) :
    (∀ fs, (b.immediate_or_cancel side p v ts oid).1 = .ok (some fs) →
       (b.immediate_or_cancel side p v ts oid).2.order_count = b.order_count + 1 ∧
       (b.immediate_or_cancel side p v ts oid).2.last_datetime = some ts) ∧
    ((b.immediate_or_cancel side p v ts oid).1 = .ok none →
       (b.immediate_or_cancel side p v ts oid).2 = b) := by
  simp only [OrderBook.immediate_or_cancel]
  by_cases hv : v = 0
  · rw [if_pos hv]
    exact ⟨fun fs h => by simp at h, fun h => by simp at h⟩
  · rw [if_neg hv]
    by_cases hs1 : side = "BID"
    · rw [if_pos hs1]
      by_cases hcr : sideMin b.ask_limits ≤ p
      · rw [if_pos hcr]
        have hl := limit_counters b "BID" p v ts true (some (oid.getD b.order_count))
        refine ⟨fun fs h => ?_, fun h => ?_⟩
        · rcases hr : (b.limit "BID" p v ts true (some (oid.getD b.order_count))).1 with e | fs2
          · simp [wrapSome, hr, Except.map] at h
          · have := (hl.1 (by simp [Except.isOk, Except.toBool, hr]))
            exact ⟨this.1, this.2.1⟩
        · rcases hr : (b.limit "BID" p v ts true (some (oid.getD b.order_count))).1 with e | fs2 <;>
            simp [wrapSome, hr, Except.map] at h
      · rw [if_neg hcr]
        exact ⟨fun fs h => by simp at h, fun _ => rfl⟩
    · rw [if_neg hs1]
      by_cases hs2 : side = "ASK"
      · rw [if_pos hs2]
        by_cases hcr : p ≤ sideMax b.bid_limits
        · rw [if_pos hcr]
          have hl := limit_counters b "ASK" p v ts true (some (oid.getD b.order_count))
          refine ⟨fun fs h => ?_, fun h => ?_⟩
          · rcases hr : (b.limit "ASK" p v ts true (some (oid.getD b.order_count))).1 with e | fs2
            · simp [wrapSome, hr, Except.map] at h
            · have := (hl.1 (by simp [Except.isOk, Except.toBool, hr]))
              exact ⟨this.1, this.2.1⟩
          · rcases hr : (b.limit "ASK" p v ts true (some (oid.getD b.order_count))).1 with e | fs2 <;>
              simp [wrapSome, hr, Except.map] at h
        · rw [if_neg hcr]
          exact ⟨fun fs h => by simp at h, fun _ => rfl⟩
      · rw [if_neg hs2]
        exact ⟨fun fs h => by simp at h, fun h => by simp at h⟩

/-! ### The claims -/

/-- Claim C1, counterexample to the statement as written: the claim holds
for every sequence of `limit`/`market` calls with no price restriction,
but at the sentinel boundary it fails.  After
`limit(BID, 9999999999, 5)` then `limit(ASK, 10000000000, 5)` (the second
price exceeds the quote setters' bound, so refresh clamps the derived ask
to the sentinel and raises; the book is left mutated), both side books
are non-empty while the derived `bid` equals the derived `ask`
(`9999999999`), not strictly below it. -/
theorem claim_C1_counterexample :
    (runCalls (OrderBook.init "SYM")
        [Call.limit "BID" 9999999999 5 0 false none,
         Call.limit "ASK" 10000000000 5 1 false none]).bid_limits ≠ [] ∧
    (runCalls (OrderBook.init "SYM")
        [Call.limit "BID" 9999999999 5 0 false none,
         Call.limit "ASK" 10000000000 5 1 false none]).ask_limits ≠ [] ∧
    ¬((runCalls (OrderBook.init "SYM")
        [Call.limit "BID" 9999999999 5 0 false none,
         Call.limit "ASK" 10000000000 5 1 false none]).bid <
      (runCalls (OrderBook.init "SYM")
        [Call.limit "BID" 9999999999 5 0 false none,
         Call.limit "ASK" 10000000000 5 1 false none]).ask) := by decide

/-- Claim C1, amended: for every sequence of `limit` and `market` calls
starting from an empty `OrderBook` in which every limit price is below
the unbounded-ask sentinel, after each call (raising calls included,
their partial mutations kept), if both the bid side and the ask side are
non-empty then the derived `bid` is strictly less than the derived `ask`
— because `limit` matches against the opposite side book via `fill`
before resting any leftover volume on its own side.  Quantifying over
every call list covers every prefix of a sequence, hence the state after
each call. -/
theorem claim_C1_amended (sym : String) (cs : List Call)
    (h : ∀ c ∈ cs, c.priceOK)
    (hbne : (runCalls (OrderBook.init sym) cs).bid_limits ≠ [])
    (hane : (runCalls (OrderBook.init sym) cs).ask_limits ≠ []) :
    (runCalls (OrderBook.init sym) cs).bid < (runCalls (OrderBook.init sym) cs).ask :=
  (runCalls_inv cs (OrderBook.init sym) (init_inv sym) h).2.2.2.2.2 hbne hane

/-- Claim C1, witness: after `limit(ASK, 100, 5)` then `limit(BID, 90, 10)`
both sides are non-empty and the derived quotes satisfy `bid < ask`. -/
theorem claim_C1_witness :
    (runCalls (OrderBook.init "SYM")
        [Call.limit "ASK" 100 5 0 false none,
         Call.limit "BID" 90 10 1 false none]).bid <
    (runCalls (OrderBook.init "SYM")
        [Call.limit "ASK" 100 5 0 false none,
         Call.limit "BID" 90 10 1 false none]).ask :=
  claim_C1_amended "SYM"
    [Call.limit "ASK" 100 5 0 false none, Call.limit "BID" 90 10 1 false none]
    (by
      intro c hc
      simp only [List.mem_cons, List.not_mem_nil, or_false] at hc
      rcases hc with rfl | rfl
      · exact (by decide : (100 : ℚ) < sentinel)
      · exact (by decide : (90 : ℚ) < sentinel))
    (by decide) (by decide)

/-- Claim C2: the code, evaluated at the failing input.  On a fresh book
(both sides empty) `refresh` does NOT complete with degraded values: it
propagates the exception raised by the `self.spread = None` assignment
(the spread setter evaluates `val < 0` on `None`), leaving the state as
already mutated.  This refutes "refresh never raises"; the try/except
structure and spec section 7 show degrading was the intent, so the
guarded setter rejecting `None` is a code bug. -/
theorem claim_C2_code_eval :
    (OrderBook.init "SYM").refresh = (.error .noneCompare, OrderBook.init "SYM") := by
  decide

/-- Claim C9: the code, evaluated at the failing input.  After the
successful mutating calls building `bookB` (ask `100 × 5`, then bid
`90 × 10`), the `misbalance` field still holds its initial `0` while the
value recomputed from the side books by the `OrderBookInterface.refresh`
formula is `10 - 5 = 5`; `imbalance` and `smart_price` likewise stay `0`.
`OrderBook.refresh` overrides the interface's refresh and never
recomputes these three fields, contradicting the claim that every
mutating call leaves them equal to the recomputed values. -/
theorem claim_C9_code_eval :
    (bookA.limit "BID" 90 10 1 false none).1.isOk = true ∧
    bookB.misbalance = 0 ∧
    interfaceMisbalance bookB = 5 ∧
    bookB.imbalance = 0 ∧
    bookB.smart_price = 0 := by decide

/-- Claim C7: `limit` raises `InvalidVolume` when `volume == 0`,
`InvalidPrice` when (volume is non-zero and) `price <= 0`, and
`InvalidSide` when the side is neither `BID` nor `ASK`, and each
validation failure leaves the entire state — side books, `order_count`,
`last_datetime` and every derived analytics field — exactly as before
the call (the returned state is the argument state itself). -/
theorem claim_C7 (b : OrderBook) (side : String) (p v : ℚ) (ts : Nat)
    (c : Bool) (oid : Option Nat) :
    (v = 0 → b.limit side p v ts c oid = (.error .invalidVolume, b)) ∧
    (v ≠ 0 → p ≤ 0 → b.limit side p v ts c oid = (.error .invalidPrice, b)) ∧
    (v ≠ 0 → ¬p ≤ 0 → side ≠ "BID" → side ≠ "ASK" →
      b.limit side p v ts c oid = (.error .invalidSide, b)) := by
  refine ⟨fun hv => ?_, fun hv hp => ?_, fun hv hp hs1 hs2 => ?_⟩
  · simp only [OrderBook.limit, if_pos hv]
  · simp only [OrderBook.limit, if_neg hv, if_pos hp]
  · simp only [OrderBook.limit, OrderBook.limitCore, if_neg hv, if_neg hp,
      if_neg hs1, if_neg hs2]

/-- Claim C7, witness: the three validation failures on concrete calls,
each leaving the fresh book untouched. -/
theorem claim_C7_witness :
    (OrderBook.init "SYM").limit "BID" 100 0 0 false none =
      (.error .invalidVolume, OrderBook.init "SYM") ∧
    (OrderBook.init "SYM").limit "BID" (-1) 5 0 false none =
      (.error .invalidPrice, OrderBook.init "SYM") ∧
    (OrderBook.init "SYM").limit "MID" 100 5 0 false none =
      (.error .invalidSide, OrderBook.init "SYM") :=
  ⟨(claim_C7 (OrderBook.init "SYM") "BID" 100 0 0 false none).1 rfl,
   (claim_C7 (OrderBook.init "SYM") "BID" (-1) 5 0 false none).2.1
     (by norm_num) (by norm_num),
   (claim_C7 (OrderBook.init "SYM") "MID" 100 5 0 false none).2.2
     (by norm_num) (by norm_num) (by decide) (by decide)⟩

/-- Claim C4: with non-zero volume and a valid side, `maker_or_cancel`
proceeds to `limit(side, price, volume, timestamp, cancel=false,
order_id)` exactly when the crossing check passes, and the check compares
the OWN side's best price with the submitted price (`BID`: bid-side
maximum `>= price`; `ASK`: ask-side minimum `<= price`); when the check
fails the order is dropped with no effect on the book state (Python
returns `None`). -/
theorem claim_C4 (b : OrderBook) (side : String) (p v : ℚ) (ts : Nat)
    (oid : Option Nat) (hv : v ≠ 0) :
    (side = "BID" →
      (p ≤ sideMax b.bid_limits →
        b.maker_or_cancel side p v ts oid =
          wrapSome (b.limit "BID" p v ts false (some (oid.getD b.order_count)))) ∧
      (¬p ≤ sideMax b.bid_limits →
        b.maker_or_cancel side p v ts oid = (.ok none, b))) ∧
    (side = "ASK" →
      (sideMin b.ask_limits ≤ p →
        b.maker_or_cancel side p v ts oid =
          wrapSome (b.limit "ASK" p v ts false (some (oid.getD b.order_count)))) ∧
      (¬sideMin b.ask_limits ≤ p →
        b.maker_or_cancel side p v ts oid = (.ok none, b))) := by
  constructor
  · intro hs1
    constructor
    · intro hcr
      simp only [OrderBook.maker_or_cancel, if_neg hv, if_pos hs1, if_pos hcr, hs1]
      simp
    · intro hcr
      simp only [OrderBook.maker_or_cancel, if_neg hv, if_pos hs1, if_neg hcr]
  · intro hs2
    have hne : ¬side = "BID" := by rw [hs2]; decide
    constructor
    · intro hcr
      simp only [OrderBook.maker_or_cancel, if_neg hv, if_neg hne, if_pos hs2,
        if_pos hcr, hs2]
      simp
    · intro hcr
      simp only [OrderBook.maker_or_cancel, if_neg hv, if_neg hne, if_pos hs2,
        if_neg hcr]

/-- Claim C4, witness: on `bookB` (best bid `90`), `maker_or_cancel(BID,
90, 2)` passes the own-side check and delegates to `limit`; on `bookA`
(empty bid side, best-bid sentinel `0`), `maker_or_cancel(BID, 100, 5)`
fails the check and is dropped with no effect. -/
theorem claim_C4_witness :
    bookB.maker_or_cancel "BID" 90 2 5 none =
      wrapSome (bookB.limit "BID" 90 2 5 false (some bookB.order_count)) ∧
    bookA.maker_or_cancel "BID" 100 5 3 none = (.ok none, bookA) :=
  ⟨((claim_C4 bookB "BID" 90 2 5 none (by norm_num)).1 rfl).1 (by decide),
   ((claim_C4 bookA "BID" 100 5 3 none (by norm_num)).1 rfl).2 (by decide)⟩

/-- Claim C5, counterexample: a dropped `immediate_or_cancel` does not
return an empty fill list.  On `bookA` (best ask `100`),
`immediate_or_cancel(BID, 90, 10)` fails the marketability check; the
call returns Python `None` (`.ok none`), which is not the empty list
`.ok (some [])`, with the book untouched. -/
theorem claim_C5_counterexample :
    (bookA.immediate_or_cancel "BID" 90 10 3 none).1 = .ok none ∧
    (bookA.immediate_or_cancel "BID" 90 10 3 none).1 ≠ .ok (some []) ∧
    (bookA.immediate_or_cancel "BID" 90 10 3 none).2 = bookA := by decide

/-- Claim C5, amended: with non-zero volume and a valid side,
`immediate_or_cancel` proceeds to `limit(..., cancel=true, order_id)` if
and only if the opposite side's best price makes the order immediately
marketable (`BID`: opposite best ask `<= price`; `ASK`: opposite best bid
`>= price`); otherwise it is dropped with no effect on the book,
returning Python `None` (no fill list) rather than an empty list. -/
theorem claim_C5_amended (b : OrderBook) (side : String) (p v : ℚ) (ts : Nat)
    (oid : Option Nat) (hv : v ≠ 0) :
    (side = "BID" →
      (sideMin b.ask_limits ≤ p →
        b.immediate_or_cancel side p v ts oid =
          wrapSome (b.limit "BID" p v ts true (some (oid.getD b.order_count)))) ∧
      (¬sideMin b.ask_limits ≤ p →
        b.immediate_or_cancel side p v ts oid = (.ok none, b))) ∧
    (side = "ASK" →
      (p ≤ sideMax b.bid_limits →
        b.immediate_or_cancel side p v ts oid =
          wrapSome (b.limit "ASK" p v ts true (some (oid.getD b.order_count)))) ∧
      (¬p ≤ sideMax b.bid_limits →
        b.immediate_or_cancel side p v ts oid = (.ok none, b))) := by
  constructor
  · intro hs1
    constructor
    · intro hcr
      simp only [OrderBook.immediate_or_cancel, if_neg hv, if_pos hs1, if_pos hcr, hs1]
      simp
    · intro hcr
      simp only [OrderBook.immediate_or_cancel, if_neg hv, if_pos hs1, if_neg hcr]
  · intro hs2
    have hne : ¬side = "BID" := by rw [hs2]; decide
    constructor
    · intro hcr
      simp only [OrderBook.immediate_or_cancel, if_neg hv, if_neg hne, if_pos hs2,
        if_pos hcr, hs2]
      simp
    · intro hcr
      simp only [OrderBook.immediate_or_cancel, if_neg hv, if_neg hne, if_pos hs2,
        if_neg hcr]

/-- Claim C5, witness: on `bookA` (best ask `100`),
`immediate_or_cancel(BID, 100, 3)` is marketable and delegates to
`limit(..., cancel=true)`, while `immediate_or_cancel(BID, 90, 10)` is
dropped with no effect. -/
theorem claim_C5_witness :
    bookA.immediate_or_cancel "BID" 100 3 4 none =
      wrapSome (bookA.limit "BID" 100 3 4 true (some bookA.order_count)) ∧
    bookA.immediate_or_cancel "BID" 90 10 3 none = (.ok none, bookA) :=
  ⟨((claim_C5_amended bookA "BID" 100 3 4 none (by norm_num)).1 rfl).1 (by decide),
   ((claim_C5_amended bookA "BID" 90 10 3 none (by norm_num)).1 rfl).2 (by decide)⟩

/-- Claim C6, counterexample: a successful `cancel` performs none of the
claimed bookkeeping.  `bookA.cancel "ASK" 0` succeeds and empties the ask
side, yet `order_count` is NOT incremented and the derived `ask` still
reads the stale `100` — no refresh ran (a refresh would have recomputed
the ask from the now-empty side book), and `cancel` does not even take a
timestamp argument to store. -/
theorem claim_C6_counterexample :
    (bookA.cancel "ASK" 0).1 = .ok () ∧
    (bookA.cancel "ASK" 0).2.ask_limits = [] ∧
    (bookA.cancel "ASK" 0).2.order_count = bookA.order_count ∧
    ¬(bookA.cancel "ASK" 0).2.order_count = bookA.order_count + 1 ∧
    (bookA.cancel "ASK" 0).2.ask = 100 := by decide

/-- Claim C6, amended: `market` and `limit` end by calling `refresh`,
then increment `order_count` and set `last_datetime` to the call's
timestamp — in that order, so on success the result is a refresh fixed
point with the counter incremented and the timestamp stored, while a
raising call (refresh failure or validation) leaves both untouched.  The
maker/immediate-or-cancel wrappers inherit this exactly when they proceed
to `limit`, and are state-identity when dropped.  `cancel` performs none
of these: it never refreshes, never increments the counter, and has no
timestamp parameter, leaving every derived field unchanged. -/
theorem claim_C6_amended (b : OrderBook) (side : String) (p v : ℚ) (ts : Nat)
    (c : Bool) (oid : Option Nat) (oid2 : Nat) :
    ((b.limit side p v ts c oid).1.isOk = true →
       (b.limit side p v ts c oid).2.order_count = b.order_count + 1 ∧
       (b.limit side p v ts c oid).2.last_datetime = some ts ∧
       (b.limit side p v ts c oid).2.refresh = (.ok (), (b.limit side p v ts c oid).2)) ∧
    ((b.limit side p v ts c oid).1.isOk = false →
       (b.limit side p v ts c oid).2.order_count = b.order_count ∧
       (b.limit side p v ts c oid).2.last_datetime = b.last_datetime) ∧
    ((b.market side v ts oid).1.isOk = true →
       (b.market side v ts oid).2.order_count = b.order_count + 1 ∧
       (b.market side v ts oid).2.last_datetime = some ts ∧
       (b.market side v ts oid).2.refresh = (.ok (), (b.market side v ts oid).2)) ∧
    ((b.market side v ts oid).1.isOk = false →
       (b.market side v ts oid).2.order_count = b.order_count ∧
       (b.market side v ts oid).2.last_datetime = b.last_datetime) ∧
    (∀ fs, (b.maker_or_cancel side p v ts oid).1 = .ok (some fs) →
       (b.maker_or_cancel side p v ts oid).2.order_count = b.order_count + 1 ∧
       (b.maker_or_cancel side p v ts oid).2.last_datetime = some ts) ∧
    ((b.maker_or_cancel side p v ts oid).1 = .ok none →
       (b.maker_or_cancel side p v ts oid).2 = b) ∧
    (∀ fs, (b.immediate_or_cancel side p v ts oid).1 = .ok (some fs) →
       (b.immediate_or_cancel side p v ts oid).2.order_count = b.order_count + 1 ∧
       (b.immediate_or_cancel side p v ts oid).2.last_datetime = some ts) ∧
    ((b.immediate_or_cancel side p v ts oid).1 = .ok none →
       (b.immediate_or_cancel side p v ts oid).2 = b) ∧
    ((b.cancel side oid2).2.order_count = b.order_count ∧
     (b.cancel side oid2).2.last_datetime = b.last_datetime ∧
     (b.cancel side oid2).2.bid = b.bid ∧
     (b.cancel side oid2).2.ask = b.ask ∧
     (b.cancel side oid2).2.bid_vol = b.bid_vol ∧
     (b.cancel side oid2).2.ask_vol = b.ask_vol ∧
     (b.cancel side oid2).2.spread = b.spread ∧
     (b.cancel side oid2).2.midquote = b.midquote) := by
  obtain ⟨l1, l2⟩ := limit_counters b side p v ts c oid
  obtain ⟨m1, m2⟩ := market_counters b side v ts oid
  obtain ⟨mo1, mo2⟩ := moc_counters b side p v ts oid
  obtain ⟨io1, io2⟩ := ioc_counters b side p v ts oid
  exact ⟨l1, l2, m1, m2, mo1, mo2, io1, io2, cancel_unchanged b side oid2⟩

/-- Claim C6, witness: a successful `limit` on a fresh book increments
the counter from `0` to `1` and stores its timestamp `7`. -/
theorem claim_C6_witness :
    ((OrderBook.init "SYM").limit "ASK" 100 5 7 false none).2.order_count =
      (OrderBook.init "SYM").order_count + 1 ∧
    ((OrderBook.init "SYM").limit "ASK" 100 5 7 false none).2.last_datetime = some 7 := by
  have h := (claim_C6_amended (OrderBook.init "SYM") "ASK" 100 5 7 false none 0).1 (by decide)
  exact ⟨h.1, h.2.1⟩

/-- Claim C10: the only volume validation in `market` and `limit` is the
equality test against zero, so a strictly negative volume with a valid
side (and, for `limit`, a positive price) is not rejected: the call never
raises `InvalidVolume` and proceeds past validation into the matching and
resting path (`marketCore`/`limitCore`, which contain the `fill` walk and
the resting step). -/
theorem claim_C10 (b : OrderBook) (side : String) (p v : ℚ) (ts : Nat)
    (c : Bool) (oid : Option Nat) (hv : v < 0) (hp : 0 < p)
    (hs : side = "BID" ∨ side = "ASK") :
    (b.market side v ts oid = b.marketCore side v ts ∧
     (b.market side v ts oid).1 ≠ .error .invalidVolume) ∧
    (b.limit side p v ts c oid = b.limitCore side p v ts c (oid.getD b.order_count) ∧
     (b.limit side p v ts c oid).1 ≠ .error .invalidVolume) := by
  have hv0 : ¬v = 0 := ne_of_lt hv
  have hp0 : ¬p ≤ 0 := not_le.2 hp
  have hm : b.market side v ts oid = b.marketCore side v ts := by
    simp only [OrderBook.market, if_neg hv0]
  have hl : b.limit side p v ts c oid = b.limitCore side p v ts c (oid.getD b.order_count) := by
    simp only [OrderBook.limit, if_neg hv0, if_neg hp0]
  refine ⟨⟨hm, ?_⟩, ⟨hl, ?_⟩⟩
  · rw [hm]
    rcases hs with hs1 | hs2
    · simp only [OrderBook.marketCore, if_pos hs1]
      exact finish_not_invalidVolume _ _ _
    · have hne : ¬side = "BID" := by rw [hs2]; decide
      simp only [OrderBook.marketCore, if_neg hne, if_pos hs2]
      exact finish_not_invalidVolume _ _ _
  · rw [hl]
    rcases hs with hs1 | hs2
    · simp only [OrderBook.limitCore, if_pos hs1]
      by_cases hrest : 0 < (fill p v "BUY" b.ask_limits).1 ∧ c = false
      · rw [if_pos hrest]; exact finish_not_invalidVolume _ _ _
      · rw [if_neg hrest]; exact finish_not_invalidVolume _ _ _
    · have hne : ¬side = "BID" := by rw [hs2]; decide
      simp only [OrderBook.limitCore, if_neg hne, if_pos hs2]
      by_cases hrest : 0 < (fill p v "SELL" b.bid_limits).1 ∧ c = false
      · rw [if_pos hrest]; exact finish_not_invalidVolume _ _ _
      · rw [if_neg hrest]; exact finish_not_invalidVolume _ _ _

/-- Claim C10, witness: a `limit(BID, 50, -3)` call on `bookA` passes
validation (no `InvalidVolume`) and reaches the matching-and-resting
path. -/
theorem claim_C10_witness :
    bookA.limit "BID" 50 (-3) 9 false none =
      bookA.limitCore "BID" 50 (-3) 9 false bookA.order_count ∧
    (bookA.limit "BID" 50 (-3) 9 false none).1 ≠ .error .invalidVolume := by
  have h := claim_C10 bookA "BID" 50 (-3) 9 false none (by norm_num) (by norm_num)
    (Or.inl rfl)
  exact ⟨h.2.1, h.2.2⟩

/-- Claim C8, counterexample: `bookA` has an EMPTY bid side and a
non-empty ask side, was produced by a completing refresh, and its
`spread`/`midquote` hold the numbers `100` and `50` (`ask - 0` and
`(ask + 0)/2`) — not the claimed "undefined (no value)".  The
empty-side guard in the source checks only `ask == error_ask`, never the
bid side; re-running refresh confirms the values. -/
theorem claim_C8_counterexample :
    bookA.bid_limits = [] ∧
    bookA.ask_limits ≠ [] ∧
    bookA.spread = 100 ∧
    bookA.midquote = 50 ∧
    (bookA.refresh).1 = .ok () ∧
    (bookA.refresh).2.spread = 100 := by decide

/-- Claim C8, amended: after a refresh that completes,
`spread = ask - bid` and `midquote = (ask + bid) / 2` hold in terms of
the refreshed derived quotes, with `bid = 0` standing in for an empty bid
side — the values are always numeric, never an undefined marker.  When
the ask side is empty, refresh does not complete at all: it raises from
the `self.spread = None` assignment instead of recording an undefined
spread/midquote. -/
theorem claim_C8_amended (b : OrderBook) :
    (∀ b2, b.refresh = (.ok (), b2) →
       b2.spread = b2.ask - b2.bid ∧ b2.midquote = (b2.ask + b2.bid) / 2) ∧
    (b.ask_limits = [] → (b.refresh).1 = .error .noneCompare) :=
  ⟨fun b2 h => refresh_ok_fields b b2 h, refresh_empty_ask b⟩

/-- Claim C8, witness: on `bookB` (both sides non-empty) the completed
refresh satisfies both formulas, and on a fresh book (empty ask side)
refresh raises. -/
theorem claim_C8_witness :
    (bookB.refresh).2.spread = (bookB.refresh).2.ask - (bookB.refresh).2.bid ∧
    (bookB.refresh).2.midquote =
      ((bookB.refresh).2.ask + (bookB.refresh).2.bid) / 2 ∧
    ((OrderBook.init "SYM").refresh).1 = .error .noneCompare := by
  have h := (claim_C8_amended bookB).1 (bookB.refresh).2 (by decide)
  exact ⟨h.1, h.2, (claim_C8_amended (OrderBook.init "SYM")).2 rfl⟩

/-- Claim C3, counterexample: an `immediate-or-cancel` style `limit`
(`cancel=true`) with a partial fill breaks the claimed equation.  On
`bookA2` (asks `100 × 5` and `200 × 7`), `limit(BID, 100, 8, cancel=true)`
succeeds, fills `5` and discards the remaining `3` (nothing rests, so the
"volume inserted as a new resting order" contribution is `0`), leaving
`8 ≠ 5 + 0`. -/
theorem claim_C3_counterexample :
    (bookA2.limit "BID" 100 8 1 true none).1.isOk = true ∧
    ¬((8 : ℚ) = fillsSum (fillsOf (bookA2.limit "BID" 100 8 1 true none).1) +
        (ownTotal "BID" (bookA2.limit "BID" 100 8 1 true none).2 -
          ownTotal "BID" bookA2)) := by
  refine ⟨by decide, ?_⟩
  have h1 : fillsSum (fillsOf (bookA2.limit "BID" 100 8 1 true none).1) = 5 := by decide
  have h2 : ownTotal "BID" (bookA2.limit "BID" 100 8 1 true none).2 = 0 := by decide
  have h3 : ownTotal "BID" bookA2 = 0 := by decide
  rw [h1, h2, h3]
  norm_num

/-- Claim C3, amended: for every successful `limit` call with strictly
positive volume, when `cancel` is false the input volume equals the sum
of `filled_volume` over the returned fills plus the volume added to the
own side as a resting order (`0` when matching consumed everything);
when `cancel` is true nothing rests (the own side's total volume is
unchanged) and the filled volume is at most the input — the unfilled
remainder is discarded, so the original equation with a zero resting
contribution does not hold for partially filled cancel calls. -/
theorem claim_C3_amended (b : OrderBook) (side : String) (p v : ℚ) (ts : Nat)
    (c : Bool) (oid : Option Nat) (hv : 0 < v)
    (hok : (b.limit side p v ts c oid).1.isOk = true) :
    (c = false →
      v = fillsSum (fillsOf (b.limit side p v ts c oid).1) +
          (ownTotal side (b.limit side p v ts c oid).2 - ownTotal side b)) ∧
    (c = true →
      ownTotal side (b.limit side p v ts c oid).2 = ownTotal side b ∧
      fillsSum (fillsOf (b.limit side p v ts c oid).1) ≤ v) := by
  have hv0 : ¬v = 0 := ne_of_gt hv
  simp only [OrderBook.limit] at hok ⊢
  rw [if_neg hv0] at hok ⊢
  by_cases hp : p ≤ 0
  · rw [if_pos hp] at hok
    simp [Except.isOk, Except.toBool] at hok
  · rw [if_neg hp] at hok ⊢
    simp only [OrderBook.limitCore] at hok ⊢
    by_cases hs1 : side = "BID"
    · rw [if_pos hs1] at hok ⊢
      have hfe : fill p v "BUY" b.ask_limits = fillLevels (crossBuy p) v b.ask_limits := rfl
      rw [hfe] at hok ⊢
      have hcons := fillLevels_conserve (crossBuy p) v b.ask_limits
      have hnn := fillLevels_nonneg (crossBuy p) v b.ask_limits (le_of_lt hv)
      by_cases hrest : 0 < (fillLevels (crossBuy p) v b.ask_limits).1 ∧ c = false
      · rw [if_pos hrest] at hok ⊢
        obtain ⟨hfq, -, -, -⟩ :=
          (finish_cases _ (fillLevels (crossBuy p) v b.ask_limits).2.1 ts).1 hok
        constructor
        · intro hc
          rw [hfq]
          simp only [ownTotal, if_pos hs1, fillsOf]
          rw [finish_bid_limits]
          simp only [insertLevelOrder_total]
          linarith
        · intro hc
          rw [hc] at hrest
          exact absurd hrest.2 (by simp)
      · rw [if_neg hrest] at hok ⊢
        obtain ⟨hfq, -, -, -⟩ :=
          (finish_cases _ (fillLevels (crossBuy p) v b.ask_limits).2.1 ts).1 hok
        constructor
        · intro hc
          have hnp : ¬0 < (fillLevels (crossBuy p) v b.ask_limits).1 :=
            fun h0 => hrest ⟨h0, hc⟩
          have h0 : (fillLevels (crossBuy p) v b.ask_limits).1 = 0 :=
            le_antisymm (not_lt.1 hnp) hnn
          rw [hfq]
          simp only [ownTotal, if_pos hs1, fillsOf]
          rw [finish_bid_limits]
          rw [h0] at hcons
          linarith
        · intro hc
          rw [hfq]
          simp only [ownTotal, if_pos hs1, fillsOf]
          rw [finish_bid_limits]
          exact ⟨rfl, by linarith⟩
    · by_cases hs2 : side = "ASK"
      · rw [if_neg hs1, if_pos hs2] at hok ⊢
        have hfe : fill p v "SELL" b.bid_limits = fillLevels (crossSell p) v b.bid_limits := rfl
        rw [hfe] at hok ⊢
        have hcons := fillLevels_conserve (crossSell p) v b.bid_limits
        have hnn := fillLevels_nonneg (crossSell p) v b.bid_limits (le_of_lt hv)
        by_cases hrest : 0 < (fillLevels (crossSell p) v b.bid_limits).1 ∧ c = false
        · rw [if_pos hrest] at hok ⊢
          obtain ⟨hfq, -, -, -⟩ :=
            (finish_cases _ (fillLevels (crossSell p) v b.bid_limits).2.1 ts).1 hok
          constructor
          · intro hc
            rw [hfq]
            simp only [ownTotal, if_neg hs1, fillsOf]
            rw [finish_ask_limits]
            simp only [insertLevelOrder_total]
            linarith
          · intro hc
            rw [hc] at hrest
            exact absurd hrest.2 (by simp)
        · rw [if_neg hrest] at hok ⊢
          obtain ⟨hfq, -, -, -⟩ :=
            (finish_cases _ (fillLevels (crossSell p) v b.bid_limits).2.1 ts).1 hok
          constructor
          · intro hc
            have hnp : ¬0 < (fillLevels (crossSell p) v b.bid_limits).1 :=
              fun h0 => hrest ⟨h0, hc⟩
            have h0 : (fillLevels (crossSell p) v b.bid_limits).1 = 0 :=
              le_antisymm (not_lt.1 hnp) hnn
            rw [hfq]
            simp only [ownTotal, if_neg hs1, fillsOf]
            rw [finish_ask_limits]
            rw [h0] at hcons
            linarith
          · intro hc
            rw [hfq]
            simp only [ownTotal, if_neg hs1, fillsOf]
            rw [finish_ask_limits]
            exact ⟨rfl, by linarith⟩
      · rw [if_neg hs1, if_neg hs2] at hok
        simp [Except.isOk, Except.toBool] at hok

/-- Claim C3, witness: `limit(BID, 100, 8, cancel=false)` on `bookA2`
fills `5` against the `100` level and rests the remaining `3` on the bid
side: `8 = 5 + 3`. -/
theorem claim_C3_witness :
    (8 : ℚ) = fillsSum (fillsOf (bookA2.limit "BID" 100 8 1 false none).1) +
      (ownTotal "BID" (bookA2.limit "BID" 100 8 1 false none).2 -
        ownTotal "BID" bookA2) :=
  (claim_C3_amended bookA2 "BID" 100 8 1 false none (by norm_num) (by decide)).1 rfl
